import Mathlib

/-!
# Verification of `decode_sensor_data.go`

A shallow embedding of the sensor-record decoder: the base64 step, the length
check and little-endian field extraction of `DecodeSensorData`, the text
rendering of `PrintSensorData`, and the command-line behaviour of `main`.

The program calls into Go's standard library: `base64.StdEncoding.DecodeString`,
`binary.LittleEndian.Uint16`, `fmt.Errorf`, and the verbs `%d` and `%.2f` of
`fmt.Printf` on `float64(x) / 100.0`.  These are embedded after the library's
own source (`encoding/base64`: `Decode` and `decodeQuantum`; `encoding/binary`;
`strconv`: exact decimal conversion rounded half to even) and IEEE 754 binary64
division.

Conventions.
* A Go `string` / `[]byte` is a `List Nat` of byte values (each `< 256`).
* `uint8` / `uint16` values are `Nat`s; truncation is written `% 2 ^ w` where the
  source can overflow.
* Text written to standard output / standard error is a Lean `String`.
-/

namespace SensorCodec

/-! ## Go strings as byte sequences -/

/-- UTF-8 encoding of one code point (Go source text and Go strings are UTF-8). -/
def utf8Bytes (c : Char) : List Nat :=
  let v := c.toNat
  if v < 0x80 then [v]
  else if v < 0x800 then [0xC0 + v / 64, 0x80 + v % 64]
  else if v < 0x10000 then [0xE0 + v / 4096, 0x80 + v / 64 % 64, 0x80 + v % 64]
  else [0xF0 + v / 262144, 0x80 + v / 4096 % 64, 0x80 + v / 64 % 64, 0x80 + v % 64]

/-- The bytes of a Go string literal. -/
def goBytes (s : String) : List Nat :=
  (s.toList.map utf8Bytes).flatten

/-! ## `encoding/base64`: `StdEncoding.DecodeString` -/

/-- The standard alphabet, `encodeStd` in `encoding/base64`. -/
def encodeStd : List Nat :=
  [65, 66, 67, 68, 69, 70, 71, 72, 73, 74, 75, 76, 77, 78, 79, 80,
   81, 82, 83, 84, 85, 86, 87, 88, 89, 90,
   97, 98, 99, 100, 101, 102, 103, 104, 105, 106, 107, 108, 109, 110, 111, 112,
   113, 114, 115, 116, 117, 118, 119, 120, 121, 122,
   48, 49, 50, 51, 52, 53, 54, 55, 56, 57, 43, 47]

/-- The padding character `StdPadding`, `'='`. -/
def padChar : Nat := 61

/-- The table `enc.decodeMap`: `decodeMap[encodeStd[i]] = i`, every other entry `0xff`. -/
def decodeMap (c : Nat) : Nat :=
  let i := encodeStd.indexOf c
  if i < 64 then i else 0xff

/-- Skipping `'\n'` and `'\r'`: the loop
`for si < len(src) && (src[si] == '\n' || src[si] == '\r') { si++ }`.
Returns the remaining input and the advanced index. -/
def skipNewlines : List Nat → Nat → List Nat × Nat
  | [], si => ([], si)
  | c :: rest, si =>
    if c = 10 ∨ c = 13 then skipNewlines rest (si + 1) else (c :: rest, si)

/-- The tail of `decodeQuantum`:
`val := dbuf[0]<<18 | dbuf[1]<<12 | dbuf[2]<<6 | dbuf[3]`, then the bytes
`byte(val>>16)`, `byte(val>>8)`, `byte(val>>0)`, of which the first `dlen - 1`
are stored (`StdEncoding` is not strict, so the leftover bits are not checked). -/
def quantumBytes (dbuf : List Nat) (dlen : Nat) : List Nat :=
  let val := (dbuf.getD 0 0) <<< 18 ||| (dbuf.getD 1 0) <<< 12 |||
             (dbuf.getD 2 0) <<< 6 ||| (dbuf.getD 3 0)
  ([(val >>> 16) % 256, (val >>> 8) % 256, (val >>> 0) % 256]).take (dlen - 1)

/-- The end of the padding branch of `decodeQuantum`: skip over newlines, report
trailing garbage (`err = CorruptInputError(si)`), otherwise store the `j - 1`
bytes of the last quantum (`dlen = j`). -/
def paddingEnd (rest : List Nat) (si j : Nat) (dbuf out : List Nat) : Except Nat (List Nat) :=
  match skipNewlines rest si with
  | ([], _) => .ok (out ++ quantumBytes dbuf j)
  | (_ :: _, si3) => .error si3

/-- The part of `decodeQuantum` that runs once a padding character has been read
at quantum position `j` (`si` is the index just past that character, `rest` the
input from there, `srcLen` is `len(src)`): `switch j` with `case 0, 1` (incorrect
padding) and `case 2` (a second `=` is expected after optional newlines).  A
result `.error n` is `CorruptInputError(n)`. -/
def decodePadding (rest : List Nat) (si j srcLen : Nat) (dbuf out : List Nat) :
    Except Nat (List Nat) :=
  if j = 0 ∨ j = 1 then .error (si - 1)
  else if j = 2 then
    match skipNewlines rest si with
    | ([], _) => .error srcLen
    | (c :: rest2, si2) =>
      if c ≠ padChar then .error (si2 - 1) else paddingEnd rest2 (si2 + 1) j dbuf out
  else paddingEnd rest si j dbuf out

/-- The decoding loop of `Encoding.Decode` together with the inner loop of
`decodeQuantum`, for `StdEncoding` (padded, not strict).  `src` is the unread
input, `si` its index in the whole input, `j` and `dbuf` are `decodeQuantum`'s
position in the current quantum and the sextets read so far (`j = 0` at a
quantum boundary, where `Decode` tests `si < len(src)`), `out` the bytes written
to `dst` so far.  The eight- and four-character fast paths of `Decode` produce
what `decodeQuantum` produces on the same characters and fall back to it
otherwise, so they are not modelled separately. -/
def decodeLoop (srcLen : Nat) : List Nat → Nat → Nat → List Nat → List Nat →
    Except Nat (List Nat)
  | [], si, j, _, out => if j = 0 then .ok out else .error (si - j)
  | c :: rest, si, j, dbuf, out =>
    let d := decodeMap c
    if d ≠ 0xff then
      if j = 3 then decodeLoop srcLen rest (si + 1) 0 [] (out ++ quantumBytes (dbuf ++ [d]) 4)
      else decodeLoop srcLen rest (si + 1) (j + 1) (dbuf ++ [d]) out
    else if c = 10 ∨ c = 13 then decodeLoop srcLen rest (si + 1) j dbuf out
    else if c ≠ padChar then .error si
    else decodePadding rest (si + 1) j srcLen dbuf out

/-- `base64.StdEncoding.DecodeString`: the decoded bytes, or
`CorruptInputError(n)` as `.error n`.  (Go also returns the bytes decoded before
an error; `DecodeSensorData` drops them.) -/
def DecodeString (s : List Nat) : Except Nat (List Nat) :=
  decodeLoop s.length s 0 0 [] []

/-! ## The record and its decoder -/

/-- The record `SensorData`: `NodeID` is a `uint8`, the other fields are `uint16`. -/
structure SensorData where
  NodeID : Nat
  WindDirection : Nat
  AirSpeed100 : Nat
  VirtualTemp100 : Nat
  deriving DecidableEq, Repr

/-- The two errors `DecodeSensorData` builds with `fmt.Errorf`. -/
inductive DecodeError where
  /-- The error `fmt.Errorf("base64 decode failed: %w", err)`, `err` being `CorruptInputError(offset)`. -/
  | base64DecodeFailed (offset : Nat)
  /-- The error `fmt.Errorf("invalid data length: expected at least 8 bytes, got %d bytes", got)`. -/
  | invalidDataLength (got : Nat)
  deriving DecidableEq, Repr

/-- The verb `%d` on an unsigned integer: its decimal numeral. -/
def fmtD (n : Nat) : String := Nat.repr n

/-- The message of an error, `err.Error()`; `CorruptInputError(n).Error()` is
`"illegal base64 data at input byte " + strconv.FormatInt(n, 10)`. -/
def DecodeError.Error : DecodeError → String
  | .base64DecodeFailed offset =>
    "base64 decode failed: " ++ ("illegal base64 data at input byte " ++ fmtD offset)
  | .invalidDataLength got =>
    "invalid data length: expected at least 8 bytes, got " ++ fmtD got ++ " bytes"

/-- What a call of `DecodeSensorData` does: return a record, return an error, or
fault at run time (an index or slice out of range). -/
inductive Outcome where
  | data (d : SensorData)
  | err (e : DecodeError)
  | panic
  deriving DecidableEq, Repr

/-- The index expression `b[i]`; `none` is the run-time panic. -/
def index (b : List Nat) (i : Nat) : Option Nat := b[i]?

/-- The slice expression `b[lo:hi]`; `none` is the run-time panic.  (Go allows
`hi` up to the capacity; the length is used here, which can only add panics.) -/
def slice (b : List Nat) (lo hi : Nat) : Option (List Nat) :=
  if lo ≤ hi ∧ hi ≤ b.length then some ((b.drop lo).take (hi - lo)) else none

/-- The function `binary.LittleEndian.Uint16`:
`_ = b[1]; return uint16(b[0]) | uint16(b[1])<<8`. -/
def Uint16 (b : List Nat) : Option Nat :=
  match index b 1 with
  | none => none
  | some _ =>
    match index b 0, index b 1 with
    | some b0, some b1 => some (b0 ||| (b1 <<< 8) % 2 ^ 16)
    | _, _ => none

/-- The composite literal of `DecodeSensorData`, lines 41-46. -/
def extractFields (decoded : List Nat) : Option SensorData :=
  match index decoded 0, slice decoded 1 3, slice decoded 3 5, slice decoded 5 7 with
  | some b0, some s1, some s3, some s5 =>
    match Uint16 s1, Uint16 s3, Uint16 s5 with
    | some wd, some sp, some vt =>
      some { NodeID := b0, WindDirection := wd, AirSpeed100 := sp, VirtualTemp100 := vt }
    | _, _, _ => none
  | _, _, _, _ => none

/-- The function `DecodeSensorData`. -/
def DecodeSensorData (base64Str : List Nat) : Outcome :=
  match DecodeString base64Str with
  | .error offset => .err (.base64DecodeFailed offset)
  | .ok decoded =>
    if decoded.length < 8 then .err (.invalidDataLength decoded.length)
    else
      match extractFields decoded with
      | some data => .data data
      | none => .panic

/-! ## `float64` division by `100.0` and the verb `%.2f` -/

/-- The integer nearest to `a / b`, ties to the even one (`b > 0`). -/
def roundHalfEven (a b : Nat) : Nat :=
  let q := a / b
  let r := a % b
  if 2 * r < b then q
  else if b < 2 * r then q + 1
  else if q % 2 = 0 then q else q + 1

/-- A finite non-negative `float64`, the number `mant / 2 ^ scale`. -/
structure Float64 where
  mant : Nat
  scale : Nat
  deriving DecidableEq, Repr

/-- Search for the least `k' ≥ k` with `b * 2 ^ 52 ≤ a * 2 ^ k'`, trying at most
`fuel` candidates after `k`. -/
def scaleFrom (a b : Nat) : Nat → Nat → Nat
  | 0, k => k
  | fuel + 1, k => if b * 2 ^ 52 ≤ a * 2 ^ k then k else scaleFrom a b fuel (k + 1)

/-- The scale `k` of the quotient of two positive integers `a / b` with
`a / b < 2 ^ 53`: the least `k` with `2 ^ 52 ≤ a * 2 ^ k / b`, so that the
quotient gets the 53 significant bits of a normal `float64`.  The search ends
within `52 + b` steps, since `b ≤ 2 ^ b`. -/
def quotScale (a b : Nat) : Nat :=
  scaleFrom a b (52 + b) 0

/-- The expression `float64(a) / float64(b)` for integers `a`, `b` that a
`float64` holds exactly (`b > 0`, quotient in the normal range): IEEE 754
division returns the exact quotient rounded to nearest, ties to even, at 53
significant bits. -/
def float64Div (a b : Nat) : Float64 :=
  if a = 0 then { mant := 0, scale := 0 }
  else
    let k := quotScale a b
    { mant := roundHalfEven (a * 2 ^ k) b, scale := k }

/-- Two decimal digits of a number below 100. -/
def twoDigits (r : Nat) : String :=
  String.mk [Nat.digitChar (r / 10), Nat.digitChar (r % 10)]

/-- The verb `%.2f`: the exact value of the `float64` rounded to the nearest
multiple of `1/100` (ties to even, as `strconv` rounds its exact decimal
expansion), written as integer part, `.`, two digits. -/
def fmtF2 (x : Float64) : String :=
  let n := roundHalfEven (x.mant * 100) (2 ^ x.scale)
  fmtD (n / 100) ++ "." ++ twoDigits (n % 100)

/-! ## Printing and the command line -/

/-- The function `PrintSensorData`: the text it writes to standard output. -/
def PrintSensorData (data : SensorData) : String :=
  "=== Sensor Data ===\n" ++
  ("Node ID:          " ++ fmtD data.NodeID ++ "\n") ++
  ("Wind Direction:   " ++ fmtD data.WindDirection ++ "°\n") ++
  ("Air Speed:        " ++ fmtF2 (float64Div data.AirSpeed100 100) ++ " m/s\n") ++
  ("Virtual Temp:     " ++ fmtF2 (float64Div data.VirtualTemp100 100) ++ "°C\n") ++
  "===================\n"

/-- What a run of the program leaves behind. -/
structure ProcessResult where
  exitCode : Nat
  stdout : String
  stderr : String
  deriving DecidableEq, Repr

/-- The function `main`; `osArgs` is `os.Args` (program name first).  A run-time
panic ends a Go program with exit status 2 and a trace on standard error. -/
def main (osArgs : List (List Nat)) : ProcessResult :=
  if osArgs.length < 2 then
    { exitCode := 1,
      stdout := "Usage: go run decode_sensor_data.go <base64_string>\n" ++
                "Example: go run decode_sensor_data.go AQAAABsAAAB9AACQAA==\n",
      stderr := "" }
  else
    let base64Str := osArgs.getD 1 []
    match DecodeSensorData base64Str with
    | .err e => { exitCode := 1, stdout := "", stderr := "Error: " ++ e.Error ++ "\n" }
    | .panic => { exitCode := 2, stdout := "", stderr := "panic: runtime error\n" }
    | .data sensorData => { exitCode := 0, stdout := PrintSensorData sensorData, stderr := "" }

/-! ## The sender's side: packing and standard base64 encoding -/

/-- The packed little-endian layout of a record, with the reserved byte `r` at
index 7. -/
def packRecord (d : SensorData) (r : Nat) : List Nat :=
  [d.NodeID, d.WindDirection % 256, d.WindDirection / 256,
   d.AirSpeed100 % 256, d.AirSpeed100 / 256,
   d.VirtualTemp100 % 256, d.VirtualTemp100 / 256, r]

/-- The character of a sextet, `encodeStd[i]`. -/
def encodeChar (i : Nat) : Nat := encodeStd.getD i 0

/-- Standard base64 encoding with padding (RFC 4648, section 4;
`StdEncoding.EncodeToString`): three bytes give four characters, a final group
of one or two bytes gives two or three characters and `=` padding. -/
def EncodeToString : List Nat → List Nat
  | [] => []
  | [a] => [encodeChar (a / 4), encodeChar (a % 4 * 16), padChar, padChar]
  | [a, b] =>
    [encodeChar (a / 4), encodeChar (a % 4 * 16 + b / 16), encodeChar (b % 16 * 4), padChar]
  | a :: b :: c :: rest =>
    encodeChar (a / 4) :: encodeChar (a % 4 * 16 + b / 16) ::
      encodeChar (b % 16 * 4 + c / 64) :: encodeChar (c % 64) :: EncodeToString rest

/-! ## Definitions used to state the properties -/

/-- The record read off a buffer: byte 0, and bytes 1-2, 3-4, 5-6 little-endian. -/
def recordOf (b : List Nat) : SensorData :=
  { NodeID := b.getD 0 0,
    WindDirection := b.getD 1 0 + 256 * b.getD 2 0,
    AirSpeed100 := b.getD 3 0 + 256 * b.getD 4 0,
    VirtualTemp100 := b.getD 5 0 + 256 * b.getD 6 0 }

/-- A byte the decoder can consume without failing: a character of the standard
alphabet, the padding character, or a newline character. -/
def legalByte (c : Nat) : Prop :=
  c ∈ encodeStd ∨ c = padChar ∨ c = 10 ∨ c = 13

instance (c : Nat) : Decidable (legalByte c) := by
  unfold legalByte
  exact inferInstance

/-- The value `v / 100` written exactly with two fractional digits: the numeral
of `v div 100`, a point, and `v mod 100` as two digits. -/
def exactHundredths (v : Nat) : String :=
  Nat.repr (v / 100) ++ "." ++ String.mk [Nat.digitChar (v % 100 / 10), Nat.digitChar (v % 100 % 10)]

/-- The two usage lines `main` prints when it has no argument. -/
def usageText : String :=
  "Usage: go run decode_sensor_data.go <base64_string>\n" ++
  "Example: go run decode_sensor_data.go AQAAABsAAAB9AACQAA==\n"

/-- A character of the standard alphabet. -/
def isAlphabet (c : Nat) : Bool := decide (c ∈ encodeStd)

/-- A line-break character, CR or LF. -/
def isNewline (c : Nat) : Bool := decide (c = 10 ∨ c = 13)

/-- Well-formed padded base64 without line breaks (RFC 4648, section 4): groups
of four alphabet characters, the last group possibly `xx==` or `xxx=`. -/
def validQuanta : List Nat → Bool
  | [] => true
  | a :: b :: c :: d :: rest =>
    isAlphabet a && isAlphabet b &&
      ((isAlphabet c && isAlphabet d && validQuanta rest) ||
       (rest.isEmpty && ((isAlphabet c && d == padChar) || (c == padChar && d == padChar))))
  | _ => false

/-- Valid standard base64 text: well-formed once the line breaks are dropped
(`encoding/base64` ignores `\r` and `\n`). -/
def validStdBase64 (s : List Nat) : Bool :=
  validQuanta (s.filter (fun c => !isNewline c))

/-- Stripping the trailing `=` padding of a text. -/
def stripPadding (s : List Nat) : List Nat :=
  (s.reverse.dropWhile (fun c => c == padChar)).reverse

/-- The text `s'` is `s` with `\r` or `\n` characters inserted at any positions. -/
inductive NewlinesInserted : List Nat → List Nat → Prop where
  | nil : NewlinesInserted [] []
  | keep (c : Nat) {s s' : List Nat} : NewlinesInserted s s' →
      NewlinesInserted (c :: s) (c :: s')
  | insert (c : Nat) {s s' : List Nat} : c = 10 ∨ c = 13 → NewlinesInserted s s' →
      NewlinesInserted s (c :: s')

/-! ## Facts about the base64 step -/

theorem quantumBytes_lt (dbuf : List Nat) (dlen x : Nat) (hx : x ∈ quantumBytes dbuf dlen) :
    x < 256 := by
  unfold quantumBytes at hx
  have hx2 := List.mem_of_mem_take hx
  simp only [List.mem_cons, List.mem_singleton, List.not_mem_nil, or_false] at hx2
  rcases hx2 with h | h | h <;> subst h <;> exact Nat.mod_lt _ (by decide)

theorem paddingEnd_lt (rest : List Nat) (si j : Nat) (dbuf out b : List Nat)
    (hout : ∀ x ∈ out, x < 256) (h : paddingEnd rest si j dbuf out = .ok b) :
    ∀ x ∈ b, x < 256 := by
  unfold paddingEnd at h
  split at h
  · injection h with h
    subst h
    intro x hx
    rcases List.mem_append.mp hx with hx | hx
    · exact hout x hx
    · exact quantumBytes_lt _ _ x hx
  · cases h

theorem decodePadding_lt (rest : List Nat) (si j srcLen : Nat) (dbuf out b : List Nat)
    (hout : ∀ x ∈ out, x < 256) (h : decodePadding rest si j srcLen dbuf out = .ok b) :
    ∀ x ∈ b, x < 256 := by
  unfold decodePadding at h
  split at h
  · cases h
  · split at h
    · split at h
      · cases h
      · split at h
        · cases h
        · exact paddingEnd_lt _ _ _ _ _ b hout h
    · exact paddingEnd_lt _ _ _ _ _ b hout h

theorem decodeLoop_lt (srcLen : Nat) (src : List Nat) :
    ∀ (si j : Nat) (dbuf out b : List Nat), (∀ x ∈ out, x < 256) →
      decodeLoop srcLen src si j dbuf out = .ok b → ∀ x ∈ b, x < 256 := by
  induction src with
  | nil =>
    intro si j dbuf out b hout h
    unfold decodeLoop at h
    split at h
    · injection h with h
      subst h
      exact hout
    · cases h
  | cons c rest ih =>
    intro si j dbuf out b hout h
    unfold decodeLoop at h
    simp only at h
    split at h
    · split at h
      · refine ih _ _ _ _ b ?_ h
        intro x hx
        rcases List.mem_append.mp hx with hx | hx
        · exact hout x hx
        · exact quantumBytes_lt _ _ x hx
      · exact ih _ _ _ _ b hout h
    · split at h
      · exact ih _ _ _ _ b hout h
      · split at h
        · cases h
        · exact decodePadding_lt _ _ _ _ _ _ b hout h

/-- Every byte `DecodeString` returns is below 256. -/
theorem DecodeString_lt (s b : List Nat) (h : DecodeString s = .ok b) : ∀ x ∈ b, x < 256 :=
  decodeLoop_lt s.length s 0 0 [] [] b (by simp) h

/-! ## Facts about the field extraction -/

/-- A bitwise or of a multiple of `2 ^ i` with a number below `2 ^ i` is their sum. -/
theorem or_eq_add_of_lt (i a b : Nat) (hb : b < 2 ^ i) : (a * 2 ^ i) ||| b = a * 2 ^ i + b := by
  rw [Nat.mul_comm a (2 ^ i)]
  exact (Nat.mul_add_lt_is_or hb a).symm

/-- The little-endian assembly `lo | hi<<8` of two bytes, in `uint16`. -/
theorem le16_eq (lo hi : Nat) (hlo : lo < 256) (hhi : hi < 256) :
    lo ||| (hi <<< 8) % 2 ^ 16 = lo + 256 * hi := by
  rw [Nat.shiftLeft_eq, Nat.mod_eq_of_lt (by omega), Nat.lor_comm,
    or_eq_add_of_lt 8 hi lo (by omega)]
  omega

theorem Uint16_pair (lo hi : Nat) (hlo : lo < 256) (hhi : hi < 256) :
    Uint16 [lo, hi] = some (lo + 256 * hi) := by
  have h : Uint16 [lo, hi] = some (lo ||| (hi <<< 8) % 2 ^ 16) := rfl
  rw [h, le16_eq lo hi hlo hhi]

/-- Field extraction on a buffer of at least seven bytes. -/
theorem extractFields_cons (b0 b1 b2 b3 b4 b5 b6 : Nat) (t : List Nat)
    (h1 : b1 < 256) (h2 : b2 < 256) (h3 : b3 < 256) (h4 : b4 < 256)
    (h5 : b5 < 256) (h6 : b6 < 256) :
    extractFields (b0 :: b1 :: b2 :: b3 :: b4 :: b5 :: b6 :: t) =
      some { NodeID := b0, WindDirection := b1 + 256 * b2, AirSpeed100 := b3 + 256 * b4,
             VirtualTemp100 := b5 + 256 * b6 } := by
  simp [extractFields, index, slice, Uint16_pair, h1, h2, h3, h4, h5, h6]

theorem extractFields_of_length (b : List Nat) (hlen : 8 ≤ b.length)
    (hb : ∀ x ∈ b, x < 256) : extractFields b = some (recordOf b) := by
  match b, hlen, hb with
  | b0 :: b1 :: b2 :: b3 :: b4 :: b5 :: b6 :: _ :: t, _, hb =>
    rw [extractFields_cons b0 b1 b2 b3 b4 b5 b6 _
      (hb b1 (by simp)) (hb b2 (by simp)) (hb b3 (by simp)) (hb b4 (by simp))
      (hb b5 (by simp)) (hb b6 (by simp))]
    simp [recordOf]

/-- The record of a buffer is the record of its first seven bytes. -/
theorem recordOf_take (b : List Nat) : recordOf (b.take 7) = recordOf b := by
  simp only [recordOf, List.getD_eq_getElem?_getD]
  rw [List.getElem?_take_of_lt (by decide), List.getElem?_take_of_lt (by decide),
    List.getElem?_take_of_lt (by decide), List.getElem?_take_of_lt (by decide),
    List.getElem?_take_of_lt (by decide), List.getElem?_take_of_lt (by decide),
    List.getElem?_take_of_lt (by decide)]

/-- After the length check, `DecodeSensorData` returns the record of the buffer. -/
theorem DecodeSensorData_of_ok (s b : List Nat) (h : DecodeString s = .ok b)
    (hlen : 8 ≤ b.length) : DecodeSensorData s = .data (recordOf b) := by
  unfold DecodeSensorData
  rw [h]
  simp only
  rw [if_neg (by omega), extractFields_of_length b hlen (DecodeString_lt s b h)]

/-! ## Facts about the sender's encoding -/

theorem decodeMap_encodeChar (i : Nat) (h : i < 64) : decodeMap (encodeChar i) = i := by
  interval_cases i <;> rfl

/-- The four sextets of a quantum occupy disjoint bits of `val`. -/
theorem sextets_val (d0 d1 d2 d3 : Nat) (h1 : d1 < 64) (h2 : d2 < 64) (h3 : d3 < 64) :
    d0 <<< 18 ||| d1 <<< 12 ||| d2 <<< 6 ||| d3 = d0 * 262144 + d1 * 4096 + d2 * 64 + d3 := by
  simp only [Nat.shiftLeft_eq]
  rw [or_eq_add_of_lt 18 d0 (d1 * 2 ^ 12) (by omega)]
  have e1 : d0 * 2 ^ 18 + d1 * 2 ^ 12 = (d0 * 64 + d1) * 2 ^ 12 := by omega
  rw [e1, or_eq_add_of_lt 12 _ (d2 * 2 ^ 6) (by omega)]
  have e2 : (d0 * 64 + d1) * 2 ^ 12 + d2 * 2 ^ 6 = (d0 * 4096 + d1 * 64 + d2) * 2 ^ 6 := by omega
  rw [e2, or_eq_add_of_lt 6 _ d3 (by omega)]
  omega

theorem quantumBytes_three (a b c : Nat) (ha : a < 256) (hb : b < 256) (hc : c < 256) :
    quantumBytes [a / 4, a % 4 * 16 + b / 16, b % 16 * 4 + c / 64, c % 64] 4 = [a, b, c] := by
  unfold quantumBytes
  simp only [List.getD_cons_zero, List.getD_cons_succ]
  rw [sextets_val _ _ _ _ (by omega) (by omega) (by omega)]
  simp only [Nat.shiftRight_eq_div_pow]
  simp
  omega

theorem quantumBytes_two (a b : Nat) (ha : a < 256) (hb : b < 256) :
    quantumBytes [a / 4, a % 4 * 16 + b / 16, b % 16 * 4] 3 = [a, b] := by
  unfold quantumBytes
  simp only [List.getD_cons_zero, List.getD_cons_succ, List.getD_nil]
  rw [sextets_val _ _ _ _ (by omega) (by omega) (by omega)]
  simp only [Nat.shiftRight_eq_div_pow]
  simp
  omega

theorem quantumBytes_one (a : Nat) (ha : a < 256) :
    quantumBytes [a / 4, a % 4 * 16] 2 = [a] := by
  unfold quantumBytes
  simp only [List.getD_cons_zero, List.getD_cons_succ, List.getD_nil]
  rw [sextets_val _ _ _ _ (by omega) (by omega) (by omega)]
  simp only [Nat.shiftRight_eq_div_pow]
  simp
  omega

/-- One step of the loop on the character of a sextet, inside a quantum. -/
theorem decodeLoop_encodeChar (srcLen d : Nat) (hd : d < 64) (rest : List Nat)
    (si j : Nat) (hj : j < 3) (dbuf out : List Nat) :
    decodeLoop srcLen (encodeChar d :: rest) si j dbuf out =
      decodeLoop srcLen rest (si + 1) (j + 1) (dbuf ++ [d]) out := by
  rw [decodeLoop]
  simp only [decodeMap_encodeChar d hd]
  rw [if_pos (by omega), if_neg (by omega)]

/-- One step of the loop on the character of the fourth sextet of a quantum. -/
theorem decodeLoop_encodeChar_last (srcLen d : Nat) (hd : d < 64) (rest : List Nat)
    (si : Nat) (dbuf out : List Nat) :
    decodeLoop srcLen (encodeChar d :: rest) si 3 dbuf out =
      decodeLoop srcLen rest (si + 1) 0 [] (out ++ quantumBytes (dbuf ++ [d]) 4) := by
  rw [decodeLoop]
  simp only [decodeMap_encodeChar d hd]
  rw [if_pos (by omega)]
  simp

/-- A full quantum: four characters give three bytes. -/
theorem decodeLoop_quantum (srcLen a b c : Nat) (ha : a < 256) (hb : b < 256) (hc : c < 256)
    (rest : List Nat) (si : Nat) (out : List Nat) :
    decodeLoop srcLen (encodeChar (a / 4) :: encodeChar (a % 4 * 16 + b / 16) ::
        encodeChar (b % 16 * 4 + c / 64) :: encodeChar (c % 64) :: rest) si 0 [] out =
      decodeLoop srcLen rest (si + 4) 0 [] (out ++ [a, b, c]) := by
  rw [decodeLoop_encodeChar _ (a / 4) (by omega) _ _ 0 (by omega),
    decodeLoop_encodeChar _ (a % 4 * 16 + b / 16) (by omega) _ _ 1 (by omega),
    decodeLoop_encodeChar _ (b % 16 * 4 + c / 64) (by omega) _ _ 2 (by omega),
    decodeLoop_encodeChar_last _ (c % 64) (by omega)]
  exact congrArg _ (congrArg _ (quantumBytes_three a b c ha hb hc))

/-- A final group of two bytes: three characters and one `=`. -/
theorem decodeLoop_two (srcLen a b : Nat) (ha : a < 256) (hb : b < 256)
    (si : Nat) (out : List Nat) :
    decodeLoop srcLen [encodeChar (a / 4), encodeChar (a % 4 * 16 + b / 16),
        encodeChar (b % 16 * 4), padChar] si 0 [] out = .ok (out ++ [a, b]) := by
  rw [decodeLoop_encodeChar _ (a / 4) (by omega) _ _ 0 (by omega),
    decodeLoop_encodeChar _ (a % 4 * 16 + b / 16) (by omega) _ _ 1 (by omega),
    decodeLoop_encodeChar _ (b % 16 * 4) (by omega) _ _ 2 (by omega)]
  have h : decodeLoop srcLen [padChar] (si + 1 + 1 + 1) (2 + 1)
      ([] ++ [a / 4] ++ [a % 4 * 16 + b / 16] ++ [b % 16 * 4]) out =
      .ok (out ++ quantumBytes [a / 4, a % 4 * 16 + b / 16, b % 16 * 4] 3) := rfl
  rw [h, quantumBytes_two a b ha hb]

/-- A final group of one byte: two characters and `==`. -/
theorem decodeLoop_one (srcLen a : Nat) (ha : a < 256) (si : Nat) (out : List Nat) :
    decodeLoop srcLen [encodeChar (a / 4), encodeChar (a % 4 * 16), padChar, padChar]
      si 0 [] out = .ok (out ++ [a]) := by
  rw [decodeLoop_encodeChar _ (a / 4) (by omega) _ _ 0 (by omega),
    decodeLoop_encodeChar _ (a % 4 * 16) (by omega) _ _ 1 (by omega)]
  have h : decodeLoop srcLen [padChar, padChar] (si + 1 + 1) (1 + 1)
      ([] ++ [a / 4] ++ [a % 4 * 16]) out =
      .ok (out ++ quantumBytes [a / 4, a % 4 * 16] 2) := rfl
  rw [h, quantumBytes_one a ha]

/-- Decoding undoes encoding, from any quantum boundary. -/
theorem decodeLoop_EncodeToString (srcLen : Nat) (bs : List Nat) :
    ∀ (si : Nat) (out : List Nat), (∀ x ∈ bs, x < 256) →
      decodeLoop srcLen (EncodeToString bs) si 0 [] out = .ok (out ++ bs) := by
  induction bs using EncodeToString.induct with
  | case1 =>
    intro si out _
    simp [EncodeToString, decodeLoop]
  | case2 a =>
    intro si out hb
    rw [EncodeToString]
    exact decodeLoop_one srcLen a (hb a (by simp)) si out
  | case3 a b =>
    intro si out hb
    rw [EncodeToString]
    exact decodeLoop_two srcLen a b (hb a (by simp)) (hb b (by simp)) si out
  | case4 a b c rest ih =>
    intro si out hb
    rw [EncodeToString, decodeLoop_quantum srcLen a b c (hb a (by simp)) (hb b (by simp))
      (hb c (by simp)), ih (si + 4) (out ++ [a, b, c]) (fun x hx => hb x (by simp [hx]))]
    simp

/-- Round trip of the base64 step: `DecodeString (EncodeToString bs) = bs`. -/
theorem DecodeString_EncodeToString (bs : List Nat) (hb : ∀ x ∈ bs, x < 256) :
    DecodeString (EncodeToString bs) = .ok bs := by
  unfold DecodeString
  rw [decodeLoop_EncodeToString _ bs 0 [] hb]
  simp

/-! ## Facts about rejected text -/

theorem mem_encodeStd_of_decodeMap (c : Nat) (h : decodeMap c ≠ 0xff) : c ∈ encodeStd := by
  unfold decodeMap at h
  simp only at h
  split at h
  · rename_i hlt
    exact List.indexOf_lt_length.mp (by simpa [encodeStd] using hlt)
  · exact absurd rfl h

theorem skipNewlines_legal (rest : List Nat) :
    ∀ (si : Nat) (rest2 : List Nat) (si2 : Nat), skipNewlines rest si = (rest2, si2) →
      (∀ c ∈ rest2, legalByte c) → ∀ c ∈ rest, legalByte c := by
  induction rest with
  | nil => intro si rest2 si2 _ _ c hc; cases hc
  | cons x xs ih =>
    intro si rest2 si2 h h2 c hc
    unfold skipNewlines at h
    split at h
    · rename_i hx
      rcases List.mem_cons.mp hc with hc | hc
      · subst hc
        exact Or.inr (Or.inr hx)
      · exact ih _ _ _ h h2 c hc
    · injection h with h _
      subst h
      exact h2 c hc

theorem paddingEnd_legal (rest : List Nat) (si j : Nat) (dbuf out b : List Nat)
    (h : paddingEnd rest si j dbuf out = .ok b) : ∀ c ∈ rest, legalByte c := by
  unfold paddingEnd at h
  split at h
  · rename_i hs
    exact skipNewlines_legal rest si [] _ hs (by simp)
  · cases h

theorem decodePadding_legal (rest : List Nat) (si j srcLen : Nat) (dbuf out b : List Nat)
    (h : decodePadding rest si j srcLen dbuf out = .ok b) : ∀ c ∈ rest, legalByte c := by
  unfold decodePadding at h
  split at h
  · cases h
  · split at h
    · split at h
      · cases h
      · rename_i c rest2 si2 hs
        split at h
        · cases h
        · rename_i hc
          refine skipNewlines_legal rest si (c :: rest2) si2 hs ?_
          intro x hx
          rcases List.mem_cons.mp hx with hx | hx
          · subst hx
            exact Or.inr (Or.inl (not_not.mp hc))
          · exact paddingEnd_legal rest2 _ _ _ _ b h x hx
    · exact paddingEnd_legal rest _ _ _ _ b h

theorem decodeLoop_legal (srcLen : Nat) (src : List Nat) :
    ∀ (si j : Nat) (dbuf out b : List Nat),
      decodeLoop srcLen src si j dbuf out = .ok b → ∀ c ∈ src, legalByte c := by
  induction src with
  | nil => intro si j dbuf out b _ c hc; cases hc
  | cons x rest ih =>
    intro si j dbuf out b h c hc
    unfold decodeLoop at h
    simp only at h
    have hx : legalByte x ∧ ∀ c ∈ rest, legalByte c := by
      split at h
      · rename_i hd
        refine ⟨Or.inl (mem_encodeStd_of_decodeMap x hd), ?_⟩
        split at h
        · exact ih _ _ _ _ b h
        · exact ih _ _ _ _ b h
      · split at h
        · rename_i hnl
          exact ⟨Or.inr (Or.inr hnl), ih _ _ _ _ b h⟩
        · split at h
          · cases h
          · rename_i hp
            exact ⟨Or.inr (Or.inl (not_not.mp hp)), decodePadding_legal rest _ _ _ _ _ b h⟩
    rcases List.mem_cons.mp hc with hc | hc
    · subst hc
      exact hx.1
    · exact hx.2 c hc

/-- Text with a byte outside the standard alphabet, `=`, `\n` and `\r` is
rejected by the base64 step. -/
theorem DecodeString_illegal (s : List Nat) (c : Nat) (hc : c ∈ s) (hl : ¬ legalByte c) :
    ∃ e, DecodeString s = .error e := by
  cases h : DecodeString s with
  | error e => exact ⟨e, rfl⟩
  | ok b => exact absurd (decodeLoop_legal s.length s 0 0 [] [] b h c hc) hl

/-! ## Accepted text is well formed -/

theorem isAlphabet_of_decodeMap (c : Nat) (h : decodeMap c ≠ 0xff) : isAlphabet c = true := by
  unfold isAlphabet
  exact decide_eq_true (mem_encodeStd_of_decodeMap c h)

theorem not_isNewline_of_decodeMap (c : Nat) (h : decodeMap c ≠ 0xff) : isNewline c = false := by
  unfold isNewline
  apply decide_eq_false
  rintro (h1 | h1) <;> subst h1 <;> exact h rfl

/-- What `skipNewlines` drops are line breaks, and it stops in front of a
character that is none. -/
theorem skipNewlines_filter (rest : List Nat) :
    ∀ (si : Nat) (rest2 : List Nat) (si2 : Nat), skipNewlines rest si = (rest2, si2) →
      rest.filter (fun c => !isNewline c) = rest2.filter (fun c => !isNewline c) ∧
      ∀ c t, rest2 = c :: t → isNewline c = false := by
  induction rest with
  | nil =>
    intro si rest2 si2 h
    unfold skipNewlines at h
    injection h with h _
    subst h
    exact ⟨rfl, fun c t hc => by cases hc⟩
  | cons x xs ih =>
    intro si rest2 si2 h
    unfold skipNewlines at h
    split at h
    · rename_i hx
      have hnl : isNewline x = true := decide_eq_true hx
      obtain ⟨h1, h2⟩ := ih _ _ _ h
      refine ⟨?_, h2⟩
      rw [List.filter_cons_of_neg (by simp [hnl])]
      exact h1
    · rename_i hx
      injection h with h _
      subst h
      refine ⟨rfl, ?_⟩
      intro c t hc
      injection hc with hc _
      subst hc
      exact decide_eq_false hx

theorem paddingEnd_filter (rest : List Nat) (si j : Nat) (dbuf out b : List Nat)
    (h : paddingEnd rest si j dbuf out = .ok b) :
    rest.filter (fun c => !isNewline c) = [] := by
  unfold paddingEnd at h
  split at h
  · rename_i hs
    exact (skipNewlines_filter rest si [] _ hs).1
  · cases h

/-- After a padding character at position `j`, acceptance means `j = 3` and
only line breaks follow, or `j = 2` and one more `=` follows among line breaks. -/
theorem decodePadding_filter (rest : List Nat) (si j srcLen : Nat) (dbuf out b : List Nat)
    (h : decodePadding rest si j srcLen dbuf out = .ok b) :
    (j = 2 ∧ rest.filter (fun c => !isNewline c) = [padChar]) ∨
    (j ≠ 0 ∧ j ≠ 1 ∧ j ≠ 2 ∧ rest.filter (fun c => !isNewline c) = []) := by
  unfold decodePadding at h
  split at h
  · cases h
  · rename_i h01
    split at h
    · rename_i h2
      split at h
      · cases h
      · rename_i c rest2 si2 hs
        split at h
        · cases h
        · rename_i hc
          have hc2 : c = padChar := not_not.mp hc
          obtain ⟨hf, hn⟩ := skipNewlines_filter rest si (c :: rest2) si2 hs
          have hcn : isNewline c = false := hn c rest2 rfl
          refine Or.inl ⟨h2, ?_⟩
          rw [hf, List.filter_cons_of_pos (by simp [hcn]), paddingEnd_filter rest2 _ _ _ _ b h,
            hc2]
    · rename_i h2
      exact Or.inr ⟨fun h0 => h01 (Or.inl h0), fun h1 => h01 (Or.inr h1), h2,
        paddingEnd_filter rest _ _ _ _ b h⟩

/-- The loop accepts only what completes the current quantum to well-formed
text: `pre` stands for the `j` alphabet characters already read. -/
theorem decodeLoop_valid (srcLen : Nat) (src : List Nat) :
    ∀ (si j : Nat) (dbuf out b pre : List Nat),
      decodeLoop srcLen src si j dbuf out = .ok b → j ≤ 3 → pre.length = j →
      (∀ x ∈ pre, isAlphabet x = true) →
      validQuanta (pre ++ src.filter (fun c => !isNewline c)) = true := by
  induction src with
  | nil =>
    intro si j dbuf out b pre h _ hlen _
    unfold decodeLoop at h
    split at h
    · rename_i hj
      subst hj
      rw [List.length_eq_zero.mp hlen]
      rfl
    · cases h
  | cons c rest ih =>
    intro si j dbuf out b pre h hj hlen hpre
    unfold decodeLoop at h
    simp only at h
    split at h
    · rename_i hd
      have hca : isAlphabet c = true := isAlphabet_of_decodeMap c hd
      rw [List.filter_cons_of_pos (by simp [not_isNewline_of_decodeMap c hd])]
      split at h
      · rename_i hj3
        subst hj3
        have ih0 := ih _ _ _ _ b [] h (by omega) rfl (by simp)
        match pre, hlen, hpre with
        | [p0, p1, p2], _, hpre =>
          have h0 := hpre p0 (by simp)
          have h1 := hpre p1 (by simp)
          have h2 := hpre p2 (by simp)
          simp only [List.nil_append] at ih0
          simp [validQuanta, h0, h1, h2, hca, ih0]
      · have ih1 := ih _ _ _ _ b (pre ++ [c]) h (by omega) (by simp [hlen]) (by
          intro x hx
          rcases List.mem_append.mp hx with hx | hx
          · exact hpre x hx
          · rw [List.mem_singleton.mp hx]; exact hca)
        simpa using ih1
    · split at h
      · rename_i hnl
        rw [List.filter_cons_of_neg (by simp [isNewline, hnl])]
        exact ih _ _ _ _ b pre h hj hlen hpre
      · rename_i hd hnl
        split at h
        · cases h
        · rename_i hp
          have hcp : c = padChar := not_not.mp hp
          rw [List.filter_cons_of_pos (by simp [isNewline, hnl])]
          rcases decodePadding_filter rest _ _ _ _ _ b h with ⟨hj2, hf⟩ | ⟨h0, h1, h2, hf⟩
          · rw [hf, hcp]
            match pre, hj2 ▸ hlen, hpre with
            | [p0, p1], _, hpre =>
              have h0 := hpre p0 (by simp)
              have h1 := hpre p1 (by simp)
              simp [validQuanta, h0, h1]
          · rw [hf, hcp]
            have hj3 : j = 3 := by omega
            match pre, hj3 ▸ hlen, hpre with
            | [p0, p1, p2], _, hpre =>
              have h0 := hpre p0 (by simp)
              have h1 := hpre p1 (by simp)
              have h2 := hpre p2 (by simp)
              simp [validQuanta, h0, h1, h2]

/-- Text that is not valid standard base64 is rejected by the base64 step. -/
theorem DecodeString_invalid (s : List Nat) (h : validStdBase64 s = false) :
    ∃ e, DecodeString s = .error e := by
  cases hd : DecodeString s with
  | error e => exact ⟨e, rfl⟩
  | ok b =>
    have hv := decodeLoop_valid s.length s 0 0 [] [] b [] hd (by omega) rfl (by simp)
    simp only [List.nil_append] at hv
    unfold validStdBase64 at h
    rw [hv] at h
    cases h

/-! ## Well-formed text is accepted -/

theorem decodeMap_of_isAlphabet (c : Nat) (h : isAlphabet c = true) : decodeMap c ≠ 0xff := by
  have hm : c ∈ encodeStd := of_decide_eq_true h
  have hi : encodeStd.indexOf c < 64 := List.indexOf_lt_length.mpr hm
  unfold decodeMap
  simp only
  rw [if_pos hi]
  omega

theorem decodeMap_of_not_isAlphabet (c : Nat) (h : isAlphabet c = false) :
    decodeMap c = 0xff := by
  have hm : c ∉ encodeStd := of_decide_eq_false h
  have hi : ¬ encodeStd.indexOf c < 64 := fun hlt => hm (List.indexOf_lt_length.mp hlt)
  unfold decodeMap
  simp only
  rw [if_neg hi]

theorem skipNewlines_of_filter_nil (rest : List Nat) :
    ∀ si : Nat, rest.filter (fun c => !isNewline c) = [] →
      ∃ si2, skipNewlines rest si = ([], si2) := by
  induction rest with
  | nil => intro si _; exact ⟨si, rfl⟩
  | cons x xs ih =>
    intro si h
    by_cases hx : isNewline x = true
    · rw [List.filter_cons_of_neg (by simp [hx])] at h
      obtain ⟨si2, h2⟩ := ih (si + 1) h
      refine ⟨si2, ?_⟩
      unfold skipNewlines
      rw [if_pos (of_decide_eq_true hx)]
      exact h2
    · rw [List.filter_cons_of_pos (by simpa using hx)] at h
      cases h

theorem skipNewlines_of_filter_cons (rest : List Nat) :
    ∀ (si y : Nat) (t : List Nat), rest.filter (fun c => !isNewline c) = y :: t →
      ∃ r2 si2, skipNewlines rest si = (y :: r2, si2) ∧
        r2.filter (fun c => !isNewline c) = t := by
  induction rest with
  | nil => intro si y t h; cases h
  | cons x xs ih =>
    intro si y t h
    by_cases hx : isNewline x = true
    · rw [List.filter_cons_of_neg (by simp [hx])] at h
      obtain ⟨r2, si2, h2, h3⟩ := ih (si + 1) y t h
      refine ⟨r2, si2, ?_, h3⟩
      unfold skipNewlines
      rw [if_pos (of_decide_eq_true hx)]
      exact h2
    · rw [List.filter_cons_of_pos (by simpa using hx)] at h
      injection h with h1 h2
      subst h1
      refine ⟨xs, si, ?_, h2⟩
      unfold skipNewlines
      rw [if_neg (fun hn => hx (decide_eq_true hn))]

theorem paddingEnd_accepts (rest : List Nat) (si j : Nat) (dbuf out : List Nat)
    (h : rest.filter (fun c => !isNewline c) = []) :
    paddingEnd rest si j dbuf out = .ok (out ++ quantumBytes dbuf j) := by
  obtain ⟨si2, h2⟩ := skipNewlines_of_filter_nil rest si h
  unfold paddingEnd
  rw [h2]

/-- The loop accepts whatever completes the current quantum to well-formed text. -/
theorem decodeLoop_accepts (srcLen : Nat) (src : List Nat) :
    ∀ (si j : Nat) (dbuf out pre : List Nat), j ≤ 3 → pre.length = j →
      (∀ x ∈ pre, isAlphabet x = true) →
      validQuanta (pre ++ src.filter (fun c => !isNewline c)) = true →
      ∃ b, decodeLoop srcLen src si j dbuf out = .ok b := by
  induction src with
  | nil =>
    intro si j dbuf out pre hj hlen _ hv
    simp only [List.filter_nil, List.append_nil] at hv
    match pre, hlen, hv with
    | [], hlen, _ =>
      refine ⟨out, ?_⟩
      unfold decodeLoop
      rw [if_pos (by simpa using hlen.symm)]
    | [_], _, hv => simp [validQuanta] at hv
    | [_, _], _, hv => simp [validQuanta] at hv
    | [_, _, _], _, hv => simp [validQuanta] at hv
    | _ :: _ :: _ :: _ :: _, hlen, _ => simp at hlen; omega
  | cons c rest ih =>
    intro si j dbuf out pre hj hlen hpre hv
    unfold decodeLoop
    simp only
    by_cases hn : isNewline c = true
    · have hd : decodeMap c = 0xff := by
        rcases (of_decide_eq_true hn : c = 10 ∨ c = 13) with h | h <;> subst h <;> rfl
      rw [List.filter_cons_of_neg (by simp [hn])] at hv
      rw [if_neg (by simp [hd]), if_pos (of_decide_eq_true hn)]
      exact ih _ _ _ _ pre hj hlen hpre hv
    · rw [List.filter_cons_of_pos (by simpa using hn)] at hv
      have hn2 : ¬ (c = 10 ∨ c = 13) := fun h => hn (decide_eq_true h)
      by_cases ha : isAlphabet c = true
      · have hd := decodeMap_of_isAlphabet c ha
        have hcp : (c == padChar) = false := by
          apply beq_false_of_ne
          intro h
          subst h
          exact absurd ha (by decide)
        rw [if_pos hd]
        by_cases hj3 : j = 3
        · rw [if_pos hj3]
          subst hj3
          match pre, hlen, hpre, hv with
          | [p0, p1, p2], _, _, hv =>
            simp only [List.cons_append, List.nil_append, validQuanta, hcp, Bool.and_false,
              Bool.or_false, Bool.and_eq_true, Bool.false_and] at hv
            exact ih _ _ _ _ [] (by omega) rfl (by simp) (by simpa using hv.2.2)
        · rw [if_neg hj3]
          refine ih _ _ _ _ (pre ++ [c]) (by omega) (by simp [hlen]) ?_ (by simpa using hv)
          intro x hx
          rcases List.mem_append.mp hx with hx | hx
          · exact hpre x hx
          · rw [List.mem_singleton.mp hx]; exact ha
      · have ha2 : isAlphabet c = false := by simpa using ha
        have hd := decodeMap_of_not_isAlphabet c ha2
        rw [if_neg (by simp [hd]), if_neg hn2]
        match pre, hlen, hpre, hv with
        | [], _, _, hv =>
          cases hf : rest.filter (fun c => !isNewline c) with
          | nil => rw [hf] at hv; simp [validQuanta] at hv
          | cons y t =>
            rw [hf] at hv
            match t, hv with
            | [], hv => simp [validQuanta] at hv
            | [_], hv => simp [validQuanta] at hv
            | _ :: _ :: _, hv => simp [validQuanta, ha2] at hv
        | [p0], _, _, hv =>
          cases hf : rest.filter (fun c => !isNewline c) with
          | nil => rw [hf] at hv; simp [validQuanta] at hv
          | cons y t =>
            rw [hf] at hv
            match t, hv with
            | [], hv => simp [validQuanta] at hv
            | _ :: _, hv => simp [validQuanta, ha2] at hv
        | [p0, p1], hlen, _, hv =>
          cases hf : rest.filter (fun c => !isNewline c) with
          | nil => rw [hf] at hv; simp [validQuanta] at hv
          | cons y t =>
            rw [hf] at hv
            simp only [List.cons_append, List.nil_append, validQuanta, ha2, Bool.false_and,
              Bool.or_false, Bool.false_or, Bool.and_eq_true, List.isEmpty_iff,
              beq_iff_eq] at hv
            obtain ⟨_, ht, hc, hy⟩ := hv
            subst ht hc hy
            obtain ⟨r2, si2, hs, hr2⟩ := skipNewlines_of_filter_cons rest (si + 1) _ _ hf
            refine ⟨out ++ quantumBytes dbuf j, ?_⟩
            rw [if_neg (by simp)]
            unfold decodePadding
            have hj2 : j = 2 := hlen.symm
            rw [if_neg (by omega), if_pos hj2, hs]
            simp only
            rw [if_neg (by simp)]
            exact paddingEnd_accepts r2 _ _ _ _ hr2
        | [p0, p1, p2], hlen, _, hv =>
          simp only [List.cons_append, List.nil_append, validQuanta, ha2, Bool.false_and,
            Bool.and_false, Bool.or_false, Bool.false_or, Bool.and_eq_true, List.isEmpty_iff,
            beq_iff_eq, Bool.or_eq_true] at hv
          obtain ⟨_, hf, hc⟩ := hv
          have hc2 : c = padChar := by
            rcases hc with h | h
            · exact h.2
            · exact h.2
          refine ⟨out ++ quantumBytes dbuf j, ?_⟩
          rw [if_neg (by simp [hc2])]
          unfold decodePadding
          have hj3 : j = 3 := hlen.symm
          rw [if_neg (by omega), if_neg (by omega)]
          exact paddingEnd_accepts rest _ _ _ _ hf
        | _ :: _ :: _ :: _ :: _, hlen, _, _ => simp at hlen; omega

/-- The base64 step accepts exactly the valid standard base64 texts. -/
theorem DecodeString_accepts_iff (s : List Nat) :
    (∃ b, DecodeString s = .ok b) ↔ validStdBase64 s = true := by
  constructor
  · rintro ⟨b, hb⟩
    have hv := decodeLoop_valid s.length s 0 0 [] [] b [] hb (by omega) rfl (by simp)
    simpa [validStdBase64] using hv
  · intro hv
    exact decodeLoop_accepts s.length s 0 0 [] [] [] (by omega) rfl (by simp)
      (by simpa [validStdBase64] using hv)

/-- An error of the base64 step is returned wrapped, before any length check. -/
theorem DecodeSensorData_of_error (s : List Nat) (e : Nat) (h : DecodeString s = .error e) :
    DecodeSensorData s = .err (.base64DecodeFailed e) := by
  unfold DecodeSensorData
  rw [h]

/-! ## Facts about rounding, `float64` division and `%.2f` -/

/-- The rounded quotient is within half a unit of the exact one. -/
theorem roundHalfEven_near (a b : Nat) (hb : 0 < b) :
    2 * (roundHalfEven a b * b) ≤ 2 * a + b ∧ 2 * a ≤ 2 * (roundHalfEven a b * b) + b := by
  have hdm : b * (a / b) + a % b = a := Nat.div_add_mod a b
  have hlt : a % b < b := Nat.mod_lt a hb
  have e1 : a / b * b = b * (a / b) := Nat.mul_comm _ _
  have e2 : (a / b + 1) * b = b * (a / b) + b := by rw [Nat.add_mul, Nat.one_mul, e1]
  unfold roundHalfEven
  simp only
  split
  · rw [e1]; omega
  · split
    · rw [e2]; omega
    · split
      · rw [e1]; omega
      · rw [e2]; omega

/-- An integer strictly within half a unit of the exact quotient is the rounded
quotient. -/
theorem roundHalfEven_unique (a b v : Nat) (h1 : 2 * a < 2 * (v * b) + b)
    (h2 : 2 * (v * b) < 2 * a + b) : roundHalfEven a b = v := by
  have hb : 0 < b := by
    rcases Nat.eq_zero_or_pos b with h | h
    · subst h; omega
    · exact h
  have hn := roundHalfEven_near a b hb
  generalize roundHalfEven a b = w at hn
  rcases Nat.lt_trichotomy w v with h | h | h
  · have : (w + 1) * b ≤ v * b := Nat.mul_le_mul_right b h
    rw [Nat.add_mul, Nat.one_mul] at this
    omega
  · exact h
  · have : (v + 1) * b ≤ w * b := Nat.mul_le_mul_right b h
    rw [Nat.add_mul, Nat.one_mul] at this
    omega

/-- With enough fuel the search reaches a scale `k` with `b * 2 ^ 52 ≤ a * 2 ^ k`. -/
theorem scaleFrom_reaches (a b : Nat) (ha : 1 ≤ a) :
    ∀ (fuel k : Nat), b * 2 ^ 52 ≤ 2 ^ (k + fuel) →
      b * 2 ^ 52 ≤ a * 2 ^ scaleFrom a b fuel k := by
  intro fuel
  induction fuel with
  | zero =>
    intro k h
    unfold scaleFrom
    calc b * 2 ^ 52 ≤ 2 ^ (k + 0) := h
      _ = 1 * 2 ^ k := by simp
      _ ≤ a * 2 ^ k := Nat.mul_le_mul_right _ ha
  | succ fuel ih =>
    intro k h
    unfold scaleFrom
    split
    · assumption
    · exact ih (k + 1) (by rw [Nat.add_assoc, Nat.add_comm 1 fuel]; exact h)

/-- The scale found is the least one: the scale before it is too small. -/
theorem scaleFrom_least (a b : Nat) :
    ∀ (fuel k : Nat), (k = 0 ∨ a * 2 ^ (k - 1) < b * 2 ^ 52) →
      (scaleFrom a b fuel k = 0 ∨ a * 2 ^ (scaleFrom a b fuel k - 1) < b * 2 ^ 52) := by
  intro fuel
  induction fuel with
  | zero => intro k h; unfold scaleFrom; exact h
  | succ fuel ih =>
    intro k h
    unfold scaleFrom
    split
    · exact h
    · rename_i hlt
      exact ih (k + 1) (Or.inr (by simpa using Nat.lt_of_not_le hlt))

/-- The quotient scale normalises the quotient into `[2 ^ 52, 2 ^ 53)`: the
mantissa has the 53 bits of a `float64`. -/
theorem quotScale_normal (a b : Nat) (ha : 1 ≤ a) (hab : a < b * 2 ^ 53) :
    b * 2 ^ 52 ≤ a * 2 ^ quotScale a b ∧ a * 2 ^ quotScale a b < b * 2 ^ 53 := by
  constructor
  · refine scaleFrom_reaches a b ha (52 + b) 0 ?_
    rw [Nat.zero_add, Nat.pow_add, Nat.mul_comm]
    exact Nat.mul_le_mul_left _ (Nat.le_of_lt (Nat.lt_two_pow b))
  · rcases scaleFrom_least a b (52 + b) 0 (Or.inl rfl) with h | h
    · unfold quotScale
      rw [h]
      simpa using hab
    · unfold quotScale
      generalize scaleFrom a b (52 + b) 0 = k at h
      cases k with
      | zero => simpa using hab
      | succ k =>
        simp only [Nat.add_sub_cancel] at h
        rw [Nat.pow_succ, ← Nat.mul_assoc]
        have e : b * 2 ^ 53 = b * 2 ^ 52 * 2 := by rw [Nat.mul_assoc]; rfl
        rw [e]
        exact Nat.mul_lt_mul_of_pos_right h (by decide)

/-- Dividing a 16-bit integer by `100.0` and rounding the quotient to hundredths
gives the integer back as the number of hundredths. -/
theorem hundredths_exact (v : Nat) (hv : v < 65536) :
    roundHalfEven ((float64Div v 100).mant * 100) (2 ^ (float64Div v 100).scale) = v := by
  unfold float64Div
  split
  · rename_i h0
    subst h0
    rfl
  · rename_i h0
    simp only
    have hn := quotScale_normal v 100 (by omega) (by omega)
    generalize quotScale v 100 = k at hn
    have hk : 100 < 2 ^ k := by
      have : v * 2 ^ k ≤ 65536 * 2 ^ k := Nat.mul_le_mul_right _ (by omega)
      have h52 : (2 : Nat) ^ 52 = 4503599627370496 := by norm_num
      omega
    have hr := roundHalfEven_near (v * 2 ^ k) 100 (by decide)
    generalize roundHalfEven (v * 2 ^ k) 100 = m at hr
    apply roundHalfEven_unique <;> omega

/-! ## Facts about the rendered text -/

/-- The verb `%.2f` on `float64(v) / 100.0` writes `v / 100` exactly. -/
theorem fmtF2_exact (v : Nat) (hv : v < 65536) :
    fmtF2 (float64Div v 100) = exactHundredths v := by
  unfold fmtF2
  simp only
  rw [hundredths_exact v hv]
  rfl

theorem digitChar_ne_newline (n : Nat) : Nat.digitChar n ≠ '\n' := by
  by_cases h : n < 16
  · interval_cases n <;> decide
  · unfold Nat.digitChar
    iterate 16 rw [if_neg (by omega)]
    decide

theorem toDigitsCore_count (fuel : Nat) :
    ∀ (n : Nat) (ds : List Char), ds.count '\n' = 0 →
      (Nat.toDigitsCore 10 fuel n ds).count '\n' = 0 := by
  induction fuel with
  | zero => intro n ds h; exact h
  | succ fuel ih =>
    intro n ds h
    have hd : (Nat.digitChar (n % 10) :: ds).count '\n' = 0 := by
      rw [List.count_cons_of_ne (digitChar_ne_newline _).symm]
      exact h
    unfold Nat.toDigitsCore
    simp only
    split
    · exact hd
    · exact ih _ _ hd

/-- A decimal numeral holds no newline. -/
theorem fmtD_count (n : Nat) : (fmtD n).data.count '\n' = 0 :=
  toDigitsCore_count (n + 1) n [] rfl

/-- Text written by `%.2f` holds no newline. -/
theorem fmtF2_count (x : Float64) : (fmtF2 x).data.count '\n' = 0 := by
  unfold fmtF2 twoDigits
  simp only [String.data_append, List.count_append, fmtD_count]
  rw [List.count_cons_of_ne (digitChar_ne_newline _).symm,
    List.count_cons_of_ne (digitChar_ne_newline _).symm]
  rfl

/-- With a first argument, `main` goes by the outcome of `DecodeSensorData`. -/
theorem main_cons_cons (prog arg : List Nat) (more : List (List Nat)) :
    main (prog :: arg :: more) =
      match DecodeSensorData arg with
      | .err e => { exitCode := 1, stdout := "", stderr := "Error: " ++ e.Error ++ "\n" }
      | .panic => { exitCode := 2, stdout := "", stderr := "panic: runtime error\n" }
      | .data sensorData =>
        { exitCode := 0, stdout := PrintSensorData sensorData, stderr := "" } := by
  unfold main
  rw [if_neg (by simp)]
  rfl

/-! ## Facts used for pass-through, totality and injectivity -/

theorem packRecord_lt (d : SensorData) (r : Nat) (hn : d.NodeID < 256)
    (hw : d.WindDirection < 65536) (ha : d.AirSpeed100 < 65536)
    (hv : d.VirtualTemp100 < 65536) (hr : r < 256) : ∀ x ∈ packRecord d r, x < 256 := by
  intro x hx
  simp only [packRecord, List.mem_cons, List.mem_singleton, List.not_mem_nil,
    or_false] at hx
  rcases hx with h | h | h | h | h | h | h | h <;> omega

theorem recordOf_packRecord (d : SensorData) (r : Nat) : recordOf (packRecord d r) = d := by
  obtain ⟨n, w, a, v⟩ := d
  simp only [recordOf, packRecord, List.getD_cons_zero, List.getD_cons_succ,
    SensorData.mk.injEq]
  refine ⟨trivial, ?_, ?_, ?_⟩ <;> omega

/-- The packed and encoded record decodes to itself, whatever its field values. -/
theorem DecodeSensorData_packRecord (d : SensorData) (r : Nat) (hn : d.NodeID < 256)
    (hw : d.WindDirection < 65536) (ha : d.AirSpeed100 < 65536)
    (hv : d.VirtualTemp100 < 65536) (hr : r < 256) :
    DecodeSensorData (EncodeToString (packRecord d r)) = .data d := by
  rw [DecodeSensorData_of_ok _ (packRecord d r)
    (DecodeString_EncodeToString _ (packRecord_lt d r hn hw ha hv hr)) (by simp [packRecord]),
    recordOf_packRecord]

theorem index_isSome (b : List Nat) (i : Nat) (h : i < b.length) : (index b i).isSome = true := by
  unfold index
  rw [List.getElem?_eq_getElem h]
  rfl

/-- A slice within the length does not fault and has `hi - lo` elements. -/
theorem slice_of_le (b : List Nat) (lo hi : Nat) (h1 : lo ≤ hi) (h2 : hi ≤ b.length) :
    ∃ t, slice b lo hi = some t ∧ t.length = hi - lo := by
  refine ⟨(b.drop lo).take (hi - lo), ?_, ?_⟩
  · unfold slice
    rw [if_pos ⟨h1, h2⟩]
  · rw [List.length_take, List.length_drop]
    omega

/-- The function `Uint16` does not fault on two bytes or more. -/
theorem Uint16_of_length (t : List Nat) (h : 2 ≤ t.length) : ∃ v, Uint16 t = some v := by
  match t, h with
  | b0 :: b1 :: _, _ => exact ⟨b0 ||| (b1 <<< 8) % 2 ^ 16, by simp [Uint16, index]⟩

/-- After the length check no access of the field extraction faults. -/
theorem extractFields_isSome (b : List Nat) (h : 8 ≤ b.length) :
    ∃ d, extractFields b = some d := by
  obtain ⟨b0, h0⟩ := Option.isSome_iff_exists.mp (index_isSome b 0 (by omega))
  obtain ⟨s1, hs1, hl1⟩ := slice_of_le b 1 3 (by omega) (by omega)
  obtain ⟨s3, hs3, hl3⟩ := slice_of_le b 3 5 (by omega) (by omega)
  obtain ⟨s5, hs5, hl5⟩ := slice_of_le b 5 7 (by omega) (by omega)
  obtain ⟨wd, hwd⟩ := Uint16_of_length s1 (by omega)
  obtain ⟨sp, hsp⟩ := Uint16_of_length s3 (by omega)
  obtain ⟨vt, hvt⟩ := Uint16_of_length s5 (by omega)
  refine ⟨⟨b0, wd, sp, vt⟩, ?_⟩
  unfold extractFields
  rw [h0, hs1, hs3, hs5]
  simp only
  rw [hwd, hsp, hvt]

/-- The function `DecodeSensorData` never faults. -/
theorem DecodeSensorData_ne_panic (s : List Nat) : DecodeSensorData s ≠ .panic := by
  unfold DecodeSensorData
  split
  · intro h; cases h
  · rename_i decoded _
    split
    · intro h; cases h
    · rename_i hlen
      obtain ⟨d, hd⟩ := extractFields_isSome decoded (by omega)
      rw [hd]
      intro h; cases h

/-! ## Facts about missing padding -/

theorem encodeChar_ne_padChar (i : Nat) (h : i < 64) : (encodeChar i == padChar) = false := by
  interval_cases i <;> rfl

/-- The encoding of eight bytes: eleven alphabet characters and one `=`. -/
theorem EncodeToString_eight (b0 b1 b2 b3 b4 b5 b6 b7 : Nat) :
    EncodeToString [b0, b1, b2, b3, b4, b5, b6, b7] =
      [encodeChar (b0 / 4), encodeChar (b0 % 4 * 16 + b1 / 16),
       encodeChar (b1 % 16 * 4 + b2 / 64), encodeChar (b2 % 64),
       encodeChar (b3 / 4), encodeChar (b3 % 4 * 16 + b4 / 16),
       encodeChar (b4 % 16 * 4 + b5 / 64), encodeChar (b5 % 64),
       encodeChar (b6 / 4), encodeChar (b6 % 4 * 16 + b7 / 16),
       encodeChar (b7 % 16 * 4), padChar] := by
  simp [EncodeToString]

theorem stripPadding_eight (b0 b1 b2 b3 b4 b5 b6 b7 : Nat) :
    stripPadding (EncodeToString [b0, b1, b2, b3, b4, b5, b6, b7]) =
      [encodeChar (b0 / 4), encodeChar (b0 % 4 * 16 + b1 / 16),
       encodeChar (b1 % 16 * 4 + b2 / 64), encodeChar (b2 % 64),
       encodeChar (b3 / 4), encodeChar (b3 % 4 * 16 + b4 / 16),
       encodeChar (b4 % 16 * 4 + b5 / 64), encodeChar (b5 % 64),
       encodeChar (b6 / 4), encodeChar (b6 % 4 * 16 + b7 / 16),
       encodeChar (b7 % 16 * 4)] := by
  rw [EncodeToString_eight]
  have h := encodeChar_ne_padChar (b7 % 16 * 4) (by omega)
  simp [stripPadding, List.dropWhile, h]

/-- Without its padding the encoding of eight bytes ends inside a quantum. -/
theorem DecodeString_stripPadding_eight (b0 b1 b2 b3 b4 b5 b6 b7 : Nat)
    (h0 : b0 < 256) (h1 : b1 < 256) (h2 : b2 < 256) (h3 : b3 < 256) (h4 : b4 < 256)
    (h5 : b5 < 256) (h6 : b6 < 256) (h7 : b7 < 256) :
    DecodeString (stripPadding (EncodeToString [b0, b1, b2, b3, b4, b5, b6, b7])) =
      .error 8 := by
  rw [stripPadding_eight]
  unfold DecodeString
  rw [decodeLoop_quantum _ b0 b1 b2 h0 h1 h2, decodeLoop_quantum _ b3 b4 b5 h3 h4 h5,
    decodeLoop_encodeChar _ (b6 / 4) (by omega) _ _ 0 (by omega),
    decodeLoop_encodeChar _ (b6 % 4 * 16 + b7 / 16) (by omega) _ _ 1 (by omega),
    decodeLoop_encodeChar _ (b7 % 16 * 4) (by omega) _ _ 2 (by omega)]
  rfl

/-- Packing the record of a buffer gives the first seven bytes of the buffer back. -/
theorem packRecord_recordOf (b : List Nat) (r : Nat) (hlen : 8 ≤ b.length)
    (hb : ∀ x ∈ b, x < 256) : (packRecord (recordOf b) r).take 7 = b.take 7 := by
  match b, hlen, hb with
  | b0 :: b1 :: b2 :: b3 :: b4 :: b5 :: b6 :: _ :: t, _, hb =>
    have h1 := hb b1 (by simp)
    have h2 := hb b2 (by simp)
    have h3 := hb b3 (by simp)
    have h4 := hb b4 (by simp)
    have h5 := hb b5 (by simp)
    have h6 := hb b6 (by simp)
    simp only [recordOf, packRecord, List.getD_cons_zero, List.getD_cons_succ, List.take,
      List.cons.injEq, and_true, true_and]
    refine ⟨?_, ?_, ?_, ?_, ?_, ?_⟩ <;> omega

/-- A record returned by `DecodeSensorData` is the record of the decoded buffer. -/
theorem recordOf_of_data (s b : List Nat) (d : SensorData) (h : DecodeString s = .ok b)
    (hlen : 8 ≤ b.length) (hd : DecodeSensorData s = .data d) : d = recordOf b := by
  rw [DecodeSensorData_of_ok s b h hlen] at hd
  injection hd with hd
  exact hd.symm

/-- An accepted buffer shorter than 8 bytes gives the data-length error. -/
theorem DecodeSensorData_of_short (s b : List Nat) (h : DecodeString s = .ok b)
    (hlen : b.length < 8) : DecodeSensorData s = .err (.invalidDataLength b.length) := by
  unfold DecodeSensorData
  rw [h]
  simp only
  rw [if_pos hlen]

/-! ## Facts about inserted line breaks -/

theorem paddingEnd_ok_eq (rest : List Nat) (si j : Nat) (dbuf out b : List Nat)
    (h : paddingEnd rest si j dbuf out = .ok b) : b = out ++ quantumBytes dbuf j := by
  unfold paddingEnd at h
  split at h
  · injection h with h
    exact h.symm
  · cases h

/-- What the padding branch returns when it accepts. -/
theorem decodePadding_ok_eq (rest : List Nat) (si j srcLen : Nat) (dbuf out b : List Nat)
    (h : decodePadding rest si j srcLen dbuf out = .ok b) : b = out ++ quantumBytes dbuf j := by
  unfold decodePadding at h
  split at h
  · cases h
  · split at h
    · split at h
      · cases h
      · split at h
        · cases h
        · exact paddingEnd_ok_eq _ _ _ _ _ b h
    · exact paddingEnd_ok_eq _ _ _ _ _ b h

/-- The padding branch accepts by what is left once line breaks are dropped. -/
theorem decodePadding_of_filter (rest : List Nat) (si j srcLen : Nat) (dbuf out : List Nat)
    (h : (j = 2 ∧ rest.filter (fun c => !isNewline c) = [padChar]) ∨
      (j ≠ 0 ∧ j ≠ 1 ∧ j ≠ 2 ∧ rest.filter (fun c => !isNewline c) = [])) :
    decodePadding rest si j srcLen dbuf out = .ok (out ++ quantumBytes dbuf j) := by
  unfold decodePadding
  rcases h with ⟨hj, hf⟩ | ⟨h0, h1, h2, hf⟩
  · obtain ⟨r2, si2, hs, hr2⟩ := skipNewlines_of_filter_cons rest si _ _ hf
    rw [if_neg (by omega), if_pos hj, hs]
    simp only
    rw [if_neg (by simp)]
    exact paddingEnd_accepts r2 _ _ _ _ hr2
  · rw [if_neg (by omega), if_neg h2]
    exact paddingEnd_accepts rest _ _ _ _ hf

theorem NewlinesInserted_filter (s s' : List Nat) (h : NewlinesInserted s s') :
    s'.filter (fun c => !isNewline c) = s.filter (fun c => !isNewline c) := by
  induction h with
  | nil => rfl
  | keep c _ ih =>
    by_cases hc : isNewline c = true
    · rw [List.filter_cons_of_neg (by simp [hc]), List.filter_cons_of_neg (by simp [hc])]
      exact ih
    · rw [List.filter_cons_of_pos (by simpa using hc),
        List.filter_cons_of_pos (by simpa using hc), ih]
  | insert c hc _ ih =>
    rw [List.filter_cons_of_neg (by simp [isNewline, hc])]
    exact ih

/-- The padding branch gives the same bytes after line breaks are inserted. -/
theorem decodePadding_inserted (s s' : List Nat) (hins : NewlinesInserted s s')
    (si si' j n n' : Nat) (dbuf out b : List Nat)
    (h : decodePadding s si j n dbuf out = .ok b) :
    decodePadding s' si' j n' dbuf out = .ok b := by
  have hb := decodePadding_ok_eq s si j n dbuf out b h
  have hf := decodePadding_filter s si j n dbuf out b h
  rw [← NewlinesInserted_filter s s' hins] at hf
  rw [hb]
  exact decodePadding_of_filter s' si' j n' dbuf out hf

/-- The decoding loop gives the same bytes after line breaks are inserted; the
indices, which only appear in errors, may differ. -/
theorem decodeLoop_inserted (s s' : List Nat) (hins : NewlinesInserted s s') :
    ∀ (si si' j n n' : Nat) (dbuf out b : List Nat),
      decodeLoop n s si j dbuf out = .ok b → decodeLoop n' s' si' j dbuf out = .ok b := by
  induction hins with
  | nil =>
    intro si si' j n n' dbuf out b h
    unfold decodeLoop at h ⊢
    split at h
    · rename_i hj
      rw [if_pos hj]
      exact h
    · cases h
  | keep c hrest ih =>
    intro si si' j n n' dbuf out b h
    unfold decodeLoop at h ⊢
    simp only at h ⊢
    by_cases hd : decodeMap c ≠ 0xff
    · rw [if_pos hd] at h ⊢
      by_cases hj : j = 3
      · rw [if_pos hj] at h ⊢
        exact ih _ _ _ _ _ _ _ b h
      · rw [if_neg hj] at h ⊢
        exact ih _ _ _ _ _ _ _ b h
    · rw [if_neg hd] at h ⊢
      by_cases hn : c = 10 ∨ c = 13
      · rw [if_pos hn] at h ⊢
        exact ih _ _ _ _ _ _ _ b h
      · rw [if_neg hn] at h ⊢
        by_cases hp : c ≠ padChar
        · rw [if_pos hp] at h
          cases h
        · rw [if_neg hp] at h ⊢
          exact decodePadding_inserted _ _ hrest _ _ _ _ _ _ _ b h
  | insert c hc _ ih =>
    intro si si' j n n' dbuf out b h
    have hd : decodeMap c = 0xff := by
      rcases hc with h1 | h1 <;> subst h1 <;> rfl
    unfold decodeLoop
    simp only
    rw [if_neg (by simp [hd]), if_pos hc]
    exact ih _ _ _ _ _ _ _ b h

/-- The base64 step gives the same bytes after line breaks are inserted. -/
theorem DecodeString_inserted (s s' b : List Nat) (hins : NewlinesInserted s s')
    (h : DecodeString s = .ok b) : DecodeString s' = .ok b :=
  decodeLoop_inserted s s' hins 0 0 0 s.length s'.length [] [] b h

/-- A record comes from an accepted buffer of at least 8 bytes. -/
theorem DecodeString_of_data (s : List Nat) (d : SensorData) (h : DecodeSensorData s = .data d) :
    ∃ b, DecodeString s = .ok b ∧ 8 ≤ b.length := by
  cases hd : DecodeString s with
  | error e =>
    rw [DecodeSensorData_of_error s e hd] at h
    cases h
  | ok b =>
    refine ⟨b, rfl, ?_⟩
    by_contra hlt
    rw [DecodeSensorData_of_short s b hd (by omega)] at h
    cases h

/-! ## The claims -/

/-- C1: for every payload whose base64 decoding is a buffer `b` of at least 8
bytes, `DecodeSensorData` succeeds and returns `NodeID = b[0]`,
`WindDirection = b[1] + 256*b[2]`, `AirSpeed100 = b[3] + 256*b[4]`,
`VirtualTemp100 = b[5] + 256*b[6]`. -/
theorem decode_extracts_fields (s b : List Nat) (h : DecodeString s = .ok b)
    (hlen : 8 ≤ b.length) :
    DecodeSensorData s = .data
      { NodeID := b.getD 0 0,
        WindDirection := b.getD 1 0 + 256 * b.getD 2 0,
        AirSpeed100 := b.getD 3 0 + 256 * b.getD 4 0,
        VirtualTemp100 := b.getD 5 0 + 256 * b.getD 6 0 } :=
  DecodeSensorData_of_ok s b h hlen

theorem decode_extracts_fields_witness :
    DecodeString (goBytes "BbQAXgGYCAk=") = .ok [5, 180, 0, 94, 1, 152, 8, 9] ∧
    DecodeSensorData (goBytes "BbQAXgGYCAk=") = .data
      { NodeID := 5, WindDirection := 180 + 256 * 0, AirSpeed100 := 94 + 256 * 1,
        VirtualTemp100 := 152 + 256 * 8 } :=
  ⟨rfl, decode_extracts_fields (goBytes "BbQAXgGYCAk=") [5, 180, 0, 94, 1, 152, 8, 9] rfl
    (by decide)⟩

/-- C2: round trip.  Packing a record (fields within their types) with any
reserved byte, encoding the 8 bytes in standard base64 with padding and decoding
the text with `DecodeSensorData` gives the record back. -/
theorem decode_roundtrip (d : SensorData) (r : Nat) (hn : d.NodeID < 256)
    (hw : d.WindDirection < 65536) (ha : d.AirSpeed100 < 65536)
    (hv : d.VirtualTemp100 < 65536) (hr : r < 256) :
    DecodeSensorData (EncodeToString (packRecord d r)) = .data d := by
  have hb : ∀ x ∈ packRecord d r, x < 256 := by
    intro x hx
    simp only [packRecord, List.mem_cons, List.mem_singleton, List.not_mem_nil,
      or_false] at hx
    rcases hx with h | h | h | h | h | h | h | h <;> omega
  rw [DecodeSensorData_of_ok _ (packRecord d r) (DecodeString_EncodeToString _ hb)
    (by simp [packRecord])]
  obtain ⟨n, w, a, v⟩ := d
  simp only [recordOf, packRecord, List.getD_cons_zero, List.getD_cons_succ,
    Outcome.data.injEq, SensorData.mk.injEq]
  refine ⟨trivial, ?_, ?_, ?_⟩ <;> omega

theorem decode_roundtrip_witness :
    EncodeToString (packRecord ⟨5, 180, 350, 2200⟩ 9) = goBytes "BbQAXgGYCAk=" ∧
    DecodeSensorData (EncodeToString (packRecord ⟨5, 180, 350, 2200⟩ 9)) =
      .data ⟨5, 180, 350, 2200⟩ :=
  ⟨rfl, decode_roundtrip ⟨5, 180, 350, 2200⟩ 9 (by decide) (by decide) (by decide)
    (by decide) (by decide)⟩

/-- C3: a payload that the base64 step accepts and that decodes to `N < 8` bytes
yields no record but the data-length error carrying `N`, whose message is
"invalid data length: expected at least 8 bytes, got N bytes". -/
theorem short_buffer_rejected (s b : List Nat) (h : DecodeString s = .ok b)
    (hlen : b.length < 8) :
    DecodeSensorData s = .err (.invalidDataLength b.length) ∧
    (DecodeError.invalidDataLength b.length).Error =
      "invalid data length: expected at least 8 bytes, got " ++ Nat.repr b.length ++
        " bytes" := by
  refine ⟨?_, rfl⟩
  unfold DecodeSensorData
  rw [h]
  simp only
  rw [if_pos hlen]

theorem short_buffer_rejected_witness :
    DecodeSensorData (goBytes "AQIDBAUGBw==") = .err (.invalidDataLength 7) ∧
    (DecodeError.invalidDataLength 7).Error =
      "invalid data length: expected at least 8 bytes, got 7 bytes" :=
  short_buffer_rejected (goBytes "AQIDBAUGBw==") [1, 2, 3, 4, 5, 6, 7] rfl (by decide)

/-- C4: text that is not valid standard base64 (not accepted by the base64 step,
in particular not well-formed padded base64 over the standard alphabet once line
breaks are dropped) gives no record but the invalid-encoding error
"base64 decode failed: ...", never the data-length error, whatever its length;
`not-base64!!` is such a text. -/
theorem invalid_base64_rejected :
    (∀ s : List Nat, validStdBase64 s = false →
      ∃ e, DecodeSensorData s = .err (.base64DecodeFailed e)) ∧
    (∀ (s : List Nat) (e : Nat), DecodeString s = .error e →
      DecodeSensorData s = .err (.base64DecodeFailed e) ∧
      (DecodeError.base64DecodeFailed e).Error =
        "base64 decode failed: " ++ ("illegal base64 data at input byte " ++ Nat.repr e) ∧
      ∀ n, DecodeSensorData s ≠ .err (.invalidDataLength n)) ∧
    validStdBase64 (goBytes "not-base64!!") = false ∧
    DecodeSensorData (goBytes "not-base64!!") = .err (.base64DecodeFailed 3) := by
  refine ⟨?_, ?_, by decide, rfl⟩
  · intro s hs
    obtain ⟨e, he⟩ := DecodeString_invalid s hs
    exact ⟨e, DecodeSensorData_of_error s e he⟩
  · intro s e h
    refine ⟨DecodeSensorData_of_error s e h, rfl, ?_⟩
    intro n hn
    rw [DecodeSensorData_of_error s e h] at hn
    cases hn

theorem invalid_base64_rejected_witness :
    validStdBase64 (goBytes "BbQAXgGYCAk") = false ∧
    (∃ e, DecodeSensorData (goBytes "BbQAXgGYCAk") = .err (.base64DecodeFailed e)) ∧
    DecodeString (goBytes "-_") = .error 0 ∧
    DecodeSensorData (goBytes "-_") = .err (.base64DecodeFailed 0) :=
  ⟨by decide, invalid_base64_rejected.1 (goBytes "BbQAXgGYCAk") (by decide), rfl,
    (invalid_base64_rejected.2.1 (goBytes "-_") 0 rfl).1⟩

/-- C5 (as stated, refuted): the payload `AQAAABsAAAB9AACQAA==` does not decode
to the 12 bytes `01 00 00 00 1B 00 00 7D 00 00 90 00`, and `DecodeSensorData`
does not return the fields 1, 0, 27, 125 on it. -/
theorem usage_example_counterexample :
    DecodeString (goBytes "AQAAABsAAAB9AACQAA==") ≠
      .ok [0x01, 0x00, 0x00, 0x00, 0x1B, 0x00, 0x00, 0x7D, 0x00, 0x00, 0x90, 0x00] ∧
    DecodeSensorData (goBytes "AQAAABsAAAB9AACQAA==") ≠
      .data { NodeID := 1, WindDirection := 0, AirSpeed100 := 27, VirtualTemp100 := 125 } := by
  constructor
  · intro h
    have h2 : DecodeString (goBytes "AQAAABsAAAB9AACQAA==") =
        .ok [0x01, 0x00, 0x00, 0x00, 0x1B, 0x00, 0x00, 0x00, 0x7D, 0x00, 0x00, 0x90, 0x00] := rfl
    rw [h2] at h
    injection h with h
    exact absurd (congrArg List.length h) (by decide)
  · decide

/-- C5 (amended): the payload `AQAAABsAAAB9AACQAA==` decodes to the 13 bytes
`01 00 00 00 1B 00 00 00 7D 00 00 90 00`; `DecodeSensorData` returns nodeId 1,
windDirection 0, airSpeedScaled 6912 (bytes `00 1B`), virtualTempScaled 0, which
the formatter renders as "69.12 m/s" and "0.00°C". -/
theorem usage_example_decodes :
    DecodeString (goBytes "AQAAABsAAAB9AACQAA==") =
      .ok [0x01, 0x00, 0x00, 0x00, 0x1B, 0x00, 0x00, 0x00, 0x7D, 0x00, 0x00, 0x90, 0x00] ∧
    DecodeSensorData (goBytes "AQAAABsAAAB9AACQAA==") =
      .data { NodeID := 1, WindDirection := 0, AirSpeed100 := 6912, VirtualTemp100 := 0 } ∧
    fmtF2 (float64Div 6912 100) ++ " m/s" = "69.12 m/s" ∧
    fmtF2 (float64Div 0 100) ++ "°C" = "0.00°C" ∧
    PrintSensorData { NodeID := 1, WindDirection := 0, AirSpeed100 := 6912, VirtualTemp100 := 0 } =
      "=== Sensor Data ===\nNode ID:          1\nWind Direction:   0°\n" ++
      "Air Speed:        69.12 m/s\nVirtual Temp:     0.00°C\n===================\n" := by
  refine ⟨rfl, by decide, by decide, by decide, by decide⟩

/-- C6: the empty string passes the base64 step with 0 bytes, `DecodeSensorData`
fails on it with the data-length error reporting 0, and the program run with the
empty string as its argument exits with code 1. -/
theorem empty_string_rejected (prog : List Nat) :
    DecodeString (goBytes "") = .ok [] ∧
    DecodeSensorData (goBytes "") = .err (.invalidDataLength 0) ∧
    main [prog, goBytes ""] =
      { exitCode := 1, stdout := "",
        stderr := "Error: invalid data length: expected at least 8 bytes, got 0 bytes\n" } := by
  refine ⟨rfl, rfl, ?_⟩
  rw [main_cons_cons]
  rfl

/-- C7: for every stored 16-bit value `v`, air speed and virtual temperature are
rendered as `v / 100` exactly, with two fractional digits: the numeral of
`v div 100`, a point, then `v mod 100` as two digits; 350 gives "3.50" and 2200
gives "22.00". -/
theorem two_decimals_exact :
    (∀ v : Nat, v < 65536 →
      fmtF2 (float64Div v 100) =
        Nat.repr (v / 100) ++ "." ++
          String.mk [Nat.digitChar (v % 100 / 10), Nat.digitChar (v % 100 % 10)]) ∧
    fmtF2 (float64Div 350 100) = "3.50" ∧
    fmtF2 (float64Div 2200 100) = "22.00" ∧
    PrintSensorData { NodeID := 5, WindDirection := 180, AirSpeed100 := 350,
                      VirtualTemp100 := 2200 } =
      "=== Sensor Data ===\nNode ID:          5\nWind Direction:   180°\n" ++
      "Air Speed:        3.50 m/s\nVirtual Temp:     22.00°C\n===================\n" := by
  refine ⟨fun v hv => fmtF2_exact v hv, ?_, ?_, ?_⟩
  · rw [fmtF2_exact 350 (by decide)]; decide
  · rw [fmtF2_exact 2200 (by decide)]; decide
  · rfl

theorem two_decimals_exact_witness :
    fmtF2 (float64Div 65535 100) = "655.35" ∧ fmtF2 (float64Div 7 100) = "0.07" :=
  ⟨(two_decimals_exact.1 65535 (by decide)).trans (by decide),
   (two_decimals_exact.1 7 (by decide)).trans (by decide)⟩

/-- C8: for every record the formatter writes exactly six newline-terminated
lines, in this order: the banner, "Node ID:" and "Wind Direction:" with the bare
decimal numerals of the fields (a degree sign after the second), "Air Speed:" and
"Virtual Temp:" with two decimals and their units, and the closing banner. -/
theorem print_six_lines (d : SensorData) :
    PrintSensorData d =
      "=== Sensor Data ===" ++ "\n" ++
      ("Node ID:          " ++ Nat.repr d.NodeID) ++ "\n" ++
      ("Wind Direction:   " ++ Nat.repr d.WindDirection ++ "°") ++ "\n" ++
      ("Air Speed:        " ++ fmtF2 (float64Div d.AirSpeed100 100) ++ " m/s") ++ "\n" ++
      ("Virtual Temp:     " ++ fmtF2 (float64Div d.VirtualTemp100 100) ++ "°C") ++ "\n" ++
      "===================" ++ "\n" ∧
    (PrintSensorData d).data.count '\n' = 6 ∧
    (d.AirSpeed100 < 65536 → d.VirtualTemp100 < 65536 →
      PrintSensorData d =
        "=== Sensor Data ===\n" ++
        "Node ID:          " ++ Nat.repr d.NodeID ++ "\n" ++
        "Wind Direction:   " ++ Nat.repr d.WindDirection ++ "°\n" ++
        "Air Speed:        " ++ exactHundredths d.AirSpeed100 ++ " m/s\n" ++
        "Virtual Temp:     " ++ exactHundredths d.VirtualTemp100 ++ "°C\n" ++
        "===================\n") := by
  refine ⟨?_, ?_, ?_⟩
  · simp only [PrintSensorData, fmtD, String.append_assoc]
    rfl
  · simp only [PrintSensorData, String.data_append, List.count_append, fmtD_count,
      fmtF2_count]
    rfl
  · intro ha hv
    simp only [PrintSensorData, fmtD, fmtF2_exact _ ha, fmtF2_exact _ hv, String.append_assoc]

theorem print_six_lines_witness :
    (PrintSensorData ⟨5, 180, 350, 2200⟩).data.count '\n' = 6 ∧
    PrintSensorData ⟨5, 180, 350, 2200⟩ =
      "=== Sensor Data ===\n" ++
      "Node ID:          " ++ Nat.repr 5 ++ "\n" ++
      "Wind Direction:   " ++ Nat.repr 180 ++ "°\n" ++
      "Air Speed:        " ++ exactHundredths 350 ++ " m/s\n" ++
      "Virtual Temp:     " ++ exactHundredths 2200 ++ "°C\n" ++
      "===================\n" :=
  ⟨(print_six_lines ⟨5, 180, 350, 2200⟩).2.1,
   (print_six_lines ⟨5, 180, 350, 2200⟩).2.2 (by decide) (by decide)⟩

/-- C9: as a function from the argument list to exit code, standard output and
standard error: the exit code is 0 exactly when there is a first argument and
`DecodeSensorData` succeeds on it, and standard output is then the formatted
record; without arguments the exit code is 1 and standard output is the two
usage lines; when decoding fails the exit code is 1, standard error is
"Error: <message>" and standard output is empty. -/
theorem main_behaviour :
    (∀ osArgs : List (List Nat), (main osArgs).exitCode = 0 ↔
      ∃ prog arg more d, osArgs = prog :: arg :: more ∧ DecodeSensorData arg = .data d) ∧
    (∀ (prog arg : List Nat) (more : List (List Nat)) (d : SensorData),
      DecodeSensorData arg = .data d →
        main (prog :: arg :: more) =
          { exitCode := 0, stdout := PrintSensorData d, stderr := "" }) ∧
    (∀ prog : List Nat, main [prog] = { exitCode := 1, stdout := usageText, stderr := "" }) ∧
    usageText.data.count '\n' = 2 ∧
    (∀ (prog arg : List Nat) (more : List (List Nat)) (e : DecodeError),
      DecodeSensorData arg = .err e →
        main (prog :: arg :: more) =
          { exitCode := 1, stdout := "", stderr := "Error: " ++ e.Error ++ "\n" }) := by
  refine ⟨?_, ?_, ?_, by decide, ?_⟩
  · intro osArgs
    constructor
    · intro h
      match osArgs, h with
      | [], h => simp [main] at h
      | [_], h => simp [main] at h
      | prog :: arg :: more, h =>
        rw [main_cons_cons] at h
        cases hd : DecodeSensorData arg with
        | data d => exact ⟨prog, arg, more, d, rfl, hd⟩
        | err e => rw [hd] at h; cases h
        | panic => rw [hd] at h; cases h
    · rintro ⟨prog, arg, more, d, rfl, hd⟩
      rw [main_cons_cons, hd]
  · intro prog arg more d hd
    rw [main_cons_cons, hd]
  · intro prog
    rfl
  · intro prog arg more e hd
    rw [main_cons_cons, hd]

theorem main_behaviour_witness :
    main [goBytes "decode", goBytes "BbQAXgGYCAk="] =
      { exitCode := 0, stdout := PrintSensorData ⟨5, 180, 350, 2200⟩, stderr := "" } ∧
    main [goBytes "decode", goBytes "AQID"] =
      { exitCode := 1, stdout := "",
        stderr := "Error: " ++ (DecodeError.invalidDataLength 3).Error ++ "\n" } ∧
    main [goBytes "decode", goBytes "not-base64!!"] =
      { exitCode := 1, stdout := "",
        stderr := "Error: " ++ (DecodeError.base64DecodeFailed 3).Error ++ "\n" } :=
  ⟨main_behaviour.2.1 _ (goBytes "BbQAXgGYCAk=") [] ⟨5, 180, 350, 2200⟩ (by decide),
   main_behaviour.2.2.2.2 _ (goBytes "AQID") [] (.invalidDataLength 3) (by decide),
   main_behaviour.2.2.2.2 _ (goBytes "not-base64!!") [] (.base64DecodeFailed 3) (by decide)⟩

/-- C10: the record depends only on the first seven decoded bytes: two payloads
whose decoded buffers both have at least 8 bytes and agree on bytes 0 to 6 give
the same record, whatever byte 7, the later bytes and the lengths are. -/
theorem decode_reads_seven_bytes (s1 s2 b1 b2 : List Nat)
    (h1 : DecodeString s1 = .ok b1) (h2 : DecodeString s2 = .ok b2)
    (hl1 : 8 ≤ b1.length) (hl2 : 8 ≤ b2.length) (heq : b1.take 7 = b2.take 7) :
    DecodeSensorData s1 = DecodeSensorData s2 ∧ ∃ d, DecodeSensorData s1 = .data d := by
  rw [DecodeSensorData_of_ok s1 b1 h1 hl1, DecodeSensorData_of_ok s2 b2 h2 hl2,
    ← recordOf_take b1, ← recordOf_take b2, heq]
  exact ⟨rfl, _, rfl⟩

theorem decode_reads_seven_bytes_witness :
    DecodeString (goBytes "BbQAXgGYCAk=") = .ok [5, 180, 0, 94, 1, 152, 8, 9] ∧
    DecodeString (goBytes "BbQAXgGYCMgBAg==") = .ok [5, 180, 0, 94, 1, 152, 8, 200, 1, 2] ∧
    DecodeSensorData (goBytes "BbQAXgGYCAk=") = DecodeSensorData (goBytes "BbQAXgGYCMgBAg==") :=
  ⟨rfl, rfl,
   (decode_reads_seven_bytes (goBytes "BbQAXgGYCAk=") (goBytes "BbQAXgGYCMgBAg==")
      [5, 180, 0, 94, 1, 152, 8, 9] [5, 180, 0, 94, 1, 152, 8, 200, 1, 2] rfl rfl
      (by decide) (by decide) rfl).1⟩

/-- C11: `DecodeSensorData` performs no range validation: every value of the four
field types (node identifier up to 255, the others up to 65535) is returned
unchanged from its encoding, also outside the documented domains (node
identifier above 10, wind direction above 360, scaled speed or temperature above
5000); nothing is rejected or clamped, and every such record is a decode result. -/
theorem no_range_validation (d : SensorData) (r : Nat) (hn : d.NodeID < 256)
    (hw : d.WindDirection < 65536) (ha : d.AirSpeed100 < 65536)
    (hv : d.VirtualTemp100 < 65536) (hr : r < 256) :
    DecodeSensorData (EncodeToString (packRecord d r)) = .data d ∧
    (10 < d.NodeID ∨ 360 < d.WindDirection ∨ 5000 < d.AirSpeed100 ∨
        5000 < d.VirtualTemp100 →
      ∀ e, DecodeSensorData (EncodeToString (packRecord d r)) ≠ .err e) ∧
    (∃ s, DecodeSensorData s = .data d) := by
  have h := DecodeSensorData_packRecord d r hn hw ha hv hr
  refine ⟨h, ?_, _, h⟩
  intro _ e he
  rw [h] at he
  cases he

theorem no_range_validation_witness :
    EncodeToString (packRecord ⟨255, 65535, 65535, 65535⟩ 255) = goBytes "//////////8=" ∧
    DecodeSensorData (goBytes "//////////8=") = .data ⟨255, 65535, 65535, 65535⟩ ∧
    DecodeSensorData (EncodeToString (packRecord ⟨11, 361, 5001, 5001⟩ 0)) =
      .data ⟨11, 361, 5001, 5001⟩ :=
  ⟨rfl, (no_range_validation ⟨255, 65535, 65535, 65535⟩ 255 (by decide) (by decide)
      (by decide) (by decide) (by decide)).1,
   (no_range_validation ⟨11, 361, 5001, 5001⟩ 0 (by decide) (by decide) (by decide)
      (by decide) (by decide)).1⟩

/-- C12: `DecodeSensorData` is total: on every input it returns a record or an
error and never faults; with indexing and slicing partial, `decoded[0]`,
`decoded[1:3]`, `decoded[3:5]`, `decoded[5:7]` and the two-byte reads on the
slices are all in bounds once `len(decoded) >= 8` has passed.  The formatter
gives a text on every record, and the program never ends on a fault. -/
theorem decode_total :
    (∀ s : List Nat, (∃ d, DecodeSensorData s = .data d) ∨ (∃ e, DecodeSensorData s = .err e)) ∧
    (∀ decoded : List Nat, 8 ≤ decoded.length →
      (∃ b0, index decoded 0 = some b0) ∧
      (∃ s1, slice decoded 1 3 = some s1 ∧ ∃ v, Uint16 s1 = some v) ∧
      (∃ s3, slice decoded 3 5 = some s3 ∧ ∃ v, Uint16 s3 = some v) ∧
      (∃ s5, slice decoded 5 7 = some s5 ∧ ∃ v, Uint16 s5 = some v) ∧
      (∃ d, extractFields decoded = some d)) ∧
    (∀ d : SensorData, ∃ text, PrintSensorData d = text ∧ text ≠ "") ∧
    (∀ osArgs : List (List Nat), (main osArgs).exitCode ≠ 2) := by
  refine ⟨?_, ?_, ?_, ?_⟩
  · intro s
    cases h : DecodeSensorData s with
    | data d => exact Or.inl ⟨d, rfl⟩
    | err e => exact Or.inr ⟨e, rfl⟩
    | panic => exact absurd h (DecodeSensorData_ne_panic s)
  · intro decoded hlen
    obtain ⟨s1, hs1, hl1⟩ := slice_of_le decoded 1 3 (by omega) (by omega)
    obtain ⟨s3, hs3, hl3⟩ := slice_of_le decoded 3 5 (by omega) (by omega)
    obtain ⟨s5, hs5, hl5⟩ := slice_of_le decoded 5 7 (by omega) (by omega)
    exact ⟨Option.isSome_iff_exists.mp (index_isSome decoded 0 (by omega)),
      ⟨s1, hs1, Uint16_of_length s1 (by omega)⟩, ⟨s3, hs3, Uint16_of_length s3 (by omega)⟩,
      ⟨s5, hs5, Uint16_of_length s5 (by omega)⟩, extractFields_isSome decoded hlen⟩
  · intro d
    refine ⟨_, rfl, ?_⟩
    intro h
    have hc := congrArg (fun t : String => t.data.length) h
    simp [PrintSensorData] at hc
  · intro osArgs
    match osArgs with
    | [] => simp [main]
    | [_] => simp [main]
    | prog :: arg :: more =>
      rw [main_cons_cons]
      cases h : DecodeSensorData arg with
      | data d => simp
      | err e => simp
      | panic => exact absurd h (DecodeSensorData_ne_panic arg)

theorem decode_total_witness :
    (∃ b0, index [5, 180, 0, 94, 1, 152, 8, 9] 0 = some b0) ∧
    (∃ d, extractFields [5, 180, 0, 94, 1, 152, 8, 9] = some d) :=
  ⟨(decode_total.2.1 [5, 180, 0, 94, 1, 152, 8, 9] (by decide)).1,
   (decode_total.2.1 [5, 180, 0, 94, 1, 152, 8, 9] (by decide)).2.2.2.2⟩

/-- C13: the payload must be standard-alphabet base64 with padding: the encoding
of an 8-byte record without its trailing `=` (11 characters instead of 12) is
rejected with the invalid-encoding error, and so is every payload that holds one
of the URL-safe characters `-` and `_`. -/
theorem padding_and_alphabet_required :
    (∀ (d : SensorData) (r : Nat), d.NodeID < 256 → d.WindDirection < 65536 →
      d.AirSpeed100 < 65536 → d.VirtualTemp100 < 65536 → r < 256 →
      (EncodeToString (packRecord d r)).length = 12 ∧
      (stripPadding (EncodeToString (packRecord d r))).length = 11 ∧
      DecodeSensorData (stripPadding (EncodeToString (packRecord d r))) =
        .err (.base64DecodeFailed 8)) ∧
    (∀ s : List Nat, 45 ∈ s ∨ 95 ∈ s →
      ∃ e, DecodeSensorData s = .err (.base64DecodeFailed e)) ∧
    goBytes "-_" = [45, 95] := by
  refine ⟨?_, ?_, rfl⟩
  · intro d r hn hw ha hv hr
    have hb := packRecord_lt d r hn hw ha hv hr
    have hp : packRecord d r = [d.NodeID, d.WindDirection % 256, d.WindDirection / 256,
        d.AirSpeed100 % 256, d.AirSpeed100 / 256, d.VirtualTemp100 % 256,
        d.VirtualTemp100 / 256, r] := rfl
    rw [hp] at hb ⊢
    refine ⟨by rw [EncodeToString_eight]; rfl, ?_, ?_⟩
    · rw [stripPadding_eight]
      rfl
    · exact DecodeSensorData_of_error _ 8
        (DecodeString_stripPadding_eight _ _ _ _ _ _ _ _ (hb _ (by simp)) (hb _ (by simp))
          (hb _ (by simp)) (hb _ (by simp)) (hb _ (by simp)) (hb _ (by simp))
          (hb _ (by simp)) hr)
  · intro s hs
    rcases hs with h | h
    · obtain ⟨e, he⟩ := DecodeString_illegal s 45 h (by decide)
      exact ⟨e, DecodeSensorData_of_error s e he⟩
    · obtain ⟨e, he⟩ := DecodeString_illegal s 95 h (by decide)
      exact ⟨e, DecodeSensorData_of_error s e he⟩

theorem padding_and_alphabet_required_witness :
    stripPadding (EncodeToString (packRecord ⟨5, 180, 350, 2200⟩ 9)) = goBytes "BbQAXgGYCAk" ∧
    DecodeSensorData (stripPadding (EncodeToString (packRecord ⟨5, 180, 350, 2200⟩ 9))) =
      .err (.base64DecodeFailed 8) ∧
    (∃ e, DecodeSensorData (goBytes "BbQAXgGYCAk_") = .err (.base64DecodeFailed e)) :=
  ⟨by decide,
   (padding_and_alphabet_required.1 ⟨5, 180, 350, 2200⟩ 9 (by decide) (by decide)
      (by decide) (by decide) (by decide)).2.2,
   padding_and_alphabet_required.2.1 (goBytes "BbQAXgGYCAk_") (Or.inr (by decide))⟩

/-- C14 (as stated, refuted): the payload `BbQAXgGYCMgBAg==` decodes to 10 bytes,
not 8, and is not rejected: `DecodeSensorData` returns a record for it. -/
theorem exact_length_counterexample :
    DecodeString (goBytes "BbQAXgGYCMgBAg==") = .ok [5, 180, 0, 94, 1, 152, 8, 200, 1, 2] ∧
    [5, 180, 0, 94, 1, 152, 8, 200, 1, 2].length ≠ 8 ∧
    DecodeSensorData (goBytes "BbQAXgGYCMgBAg==") =
      .data { NodeID := 5, WindDirection := 180, AirSpeed100 := 350, VirtualTemp100 := 2200 } ∧
    DecodeSensorData (goBytes "BbQAXgGYCMgBAg==") ≠ .err (.invalidDataLength 10) := by
  refine ⟨rfl, by decide, by decide, by decide⟩

/-- C14 (amended): the size validation requires at least 8 decoded bytes: an
accepted payload is rejected with the data-length error exactly when it decodes
to fewer than 8 bytes, and one of 8 bytes or more yields a record. -/
theorem length_at_least_eight (s b : List Nat) (h : DecodeString s = .ok b) :
    ((∃ n, DecodeSensorData s = .err (.invalidDataLength n)) ↔ b.length < 8) ∧
    (b.length < 8 → DecodeSensorData s = .err (.invalidDataLength b.length)) ∧
    (8 ≤ b.length → ∃ d, DecodeSensorData s = .data d) := by
  refine ⟨⟨?_, fun hlt => ⟨_, DecodeSensorData_of_short s b h hlt⟩⟩,
    DecodeSensorData_of_short s b h, fun hge => ⟨_, DecodeSensorData_of_ok s b h hge⟩⟩
  rintro ⟨n, hn⟩
  by_contra hge
  rw [DecodeSensorData_of_ok s b h (by omega)] at hn
  cases hn

theorem length_at_least_eight_witness :
    (∃ d, DecodeSensorData (goBytes "////////////") = .data d) ∧
    DecodeSensorData (goBytes "AQIDBAUGBw==") = .err (.invalidDataLength 7) :=
  ⟨(length_at_least_eight (goBytes "////////////")
      [255, 255, 255, 255, 255, 255, 255, 255, 255] rfl).2.2 (by decide),
   (length_at_least_eight (goBytes "AQIDBAUGBw==") [1, 2, 3, 4, 5, 6, 7] rfl).2.1 (by decide)⟩

/-- C15: decoding loses nothing of the first seven bytes: for a payload decoding
to a buffer `b` of at least 8 bytes, packing the returned record in the
little-endian layout gives `b[0..6]` back; hence two payloads that decode to the
same record have buffers that agree on bytes 0 to 6. -/
theorem decode_injective_on_seven_bytes :
    (∀ (s b : List Nat) (d : SensorData) (r : Nat), DecodeString s = .ok b →
      8 ≤ b.length → DecodeSensorData s = .data d →
      [d.NodeID, d.WindDirection % 256, d.WindDirection / 256, d.AirSpeed100 % 256,
        d.AirSpeed100 / 256, d.VirtualTemp100 % 256, d.VirtualTemp100 / 256] = b.take 7 ∧
      (packRecord d r).take 7 = b.take 7) ∧
    (∀ s1 s2 b1 b2 : List Nat, DecodeString s1 = .ok b1 → DecodeString s2 = .ok b2 →
      8 ≤ b1.length → 8 ≤ b2.length → DecodeSensorData s1 = DecodeSensorData s2 →
      b1.take 7 = b2.take 7) := by
  constructor
  · intro s b d r h hlen hd
    have hrec := recordOf_of_data s b d h hlen hd
    have hp := packRecord_recordOf b r hlen (DecodeString_lt s b h)
    rw [← hrec] at hp
    exact ⟨hp, hp⟩
  · intro s1 s2 b1 b2 h1 h2 hl1 hl2 heq
    rw [DecodeSensorData_of_ok s1 b1 h1 hl1, DecodeSensorData_of_ok s2 b2 h2 hl2] at heq
    injection heq with heq
    rw [← packRecord_recordOf b1 0 hl1 (DecodeString_lt s1 b1 h1),
      ← packRecord_recordOf b2 0 hl2 (DecodeString_lt s2 b2 h2), heq]

theorem decode_injective_on_seven_bytes_witness :
    (packRecord ⟨5, 180, 350, 2200⟩ 77).take 7 = [5, 180, 0, 94, 1, 152, 8] ∧
    ([5, 180, 0, 94, 1, 152, 8, 9] : List Nat).take 7 =
      ([5, 180, 0, 94, 1, 152, 8, 200, 1, 2] : List Nat).take 7 :=
  ⟨(decode_injective_on_seven_bytes.1 (goBytes "BbQAXgGYCAk=") [5, 180, 0, 94, 1, 152, 8, 9]
      ⟨5, 180, 350, 2200⟩ 77 rfl (by decide) (by decide)).2,
   decode_injective_on_seven_bytes.2 (goBytes "BbQAXgGYCAk=") (goBytes "BbQAXgGYCMgBAg==")
      [5, 180, 0, 94, 1, 152, 8, 9] [5, 180, 0, 94, 1, 152, 8, 200, 1, 2] rfl rfl
      (by decide) (by decide) (by decide)⟩

/-- C16: carriage-return and line-feed characters are ignored by the base64 step:
if `s'` is `s` with `\r` or `\n` inserted at any positions, then whatever bytes
the base64 step decodes from `s` it decodes from `s'`, and if `DecodeSensorData`
returns a record on `s` it returns the same record on `s'`. -/
theorem newlines_ignored (s s' : List Nat) (hins : NewlinesInserted s s') :
    (∀ b, DecodeString s = .ok b → DecodeString s' = .ok b) ∧
    (∀ d, DecodeSensorData s = .data d → DecodeSensorData s' = .data d) := by
  refine ⟨fun b h => DecodeString_inserted s s' b hins h, ?_⟩
  intro d hd
  obtain ⟨b, hb, hlen⟩ := DecodeString_of_data s d hd
  rw [DecodeSensorData_of_ok s b hb hlen] at hd
  rw [DecodeSensorData_of_ok s' b (DecodeString_inserted s s' b hins hb) hlen]
  exact hd

theorem newlines_ignored_witness :
    goBytes "BbQAXgGYCAk=" = [66, 98, 81, 65, 88, 103, 71, 89, 67, 65, 107, 61] ∧
    goBytes "\nBbQA\r\nXgGYCAk\n=\r\n" =
      [10, 66, 98, 81, 65, 13, 10, 88, 103, 71, 89, 67, 65, 107, 10, 61, 13, 10] ∧
    DecodeSensorData [10, 66, 98, 81, 65, 13, 10, 88, 103, 71, 89, 67, 65, 107, 10, 61, 13, 10] =
      .data ⟨5, 180, 350, 2200⟩ :=
  ⟨by decide, by decide,
   (newlines_ignored [66, 98, 81, 65, 88, 103, 71, 89, 67, 65, 107, 61]
      [10, 66, 98, 81, 65, 13, 10, 88, 103, 71, 89, 67, 65, 107, 10, 61, 13, 10]
      (by
        repeat first
          | exact NewlinesInserted.nil
          | apply NewlinesInserted.keep
          | apply NewlinesInserted.insert _ (by decide))).2 ⟨5, 180, 350, 2200⟩ (by decide)⟩

end SensorCodec
